import Mathlib

/-!
Shallow embedding of the bicimad data manager (`bicimad/bicimad.py`).

Python strings are modelled as `List Char`, machine integers as `Int`,
pandas numeric cell values as `ℚ`.  Exceptions are modelled with `Except`
over an explicit error type.  The two `re` patterns used by the source are
compiled to explicit first/last-occurrence computations whose semantics is
spelled out where they are defined.
-/

namespace Bicimad

deriving instance DecidableEq for Except

/-- A Python string, modelled as its list of characters. -/
abbrev Str := List Char

/-- Convert a Lean string literal to the model's string type. -/
def chars (x : String) : Str := x.toList

/-- Does `pat` occur in `s` starting at position `i`? -/
def occursAt (pat s : Str) (i : Nat) : Bool := pat.isPrefixOf (s.drop i)

/-- Does `pat` occur anywhere in `s`? -/
def occursIn (pat : Str) : Str → Bool
  | [] => pat.isEmpty
  | c :: t => pat.isPrefixOf (c :: t) || occursIn pat t

/-- Index of the first occurrence of `pat` in `s`, if any. -/
def firstIdx? (pat : Str) : Str → Option Nat
  | [] => if pat.isEmpty then some 0 else none
  | c :: t => if pat.isPrefixOf (c :: t) then some 0 else (firstIdx? pat t).map (· + 1)

/-- Index of the last occurrence of `pat` in `s`, if any. -/
def lastIdx? (pat : Str) : Str → Option Nat
  | [] => if pat.isEmpty then some 0 else none
  | c :: t =>
    match lastIdx? pat t with
    | some i => some (i + 1)
    | none => if pat.isPrefixOf (c :: t) then some 0 else none

/-- Split a string at every occurrence of the character `sep`
    (the semantics of Python's `str.split` on a one-character separator). -/
def splitOnChar (sep : Char) : Str → List Str
  | [] => [[]]
  | c :: t =>
    if c = sep then [] :: splitOnChar sep t
    else
      match splitOnChar sep t with
      | [] => [[c]]
      | l :: ls => (c :: l) :: ls

/-- A Python value passed as the `month`/`year` argument: an int or a string
    (the test suite passes the string `'patata'` as a month). -/
inductive PyVal where
  | i (n : Int)
  | s (v : Str)
deriving DecidableEq, Repr

/-- Python `str(v)` / f-string interpolation `{v}` for such a value. -/
def pyStr : PyVal → Str
  | .i n => chars (toString n)
  | .s v => v

/-- Python `f"{v:02}"` (3.10+ semantics): minimum width 2, fill `'0'`;
    ints are sign-aware zero padded on the left, strings keep the default
    left alignment and are padded on the right. -/
def format02 : PyVal → Str
  | .i n =>
    let t := chars (toString n)
    if t.length < 2 then '0' :: t else t
  | .s v => if v.length < 2 then v ++ List.replicate (2 - v.length) '0' else v

/-- The Python exceptions that the embedded code can raise. -/
inductive PyErr where
  | valueError (msg : Str)
  | connectionError (msg : Str)
  | keyError (k : Str)
  | attributeError (msg : Str)
  | typeError (msg : Str)
  | indexError (msg : Str)
deriving DecidableEq, Repr

/-- An HTTP response as seen by the code: a status code, the body text, and
    (for archive downloads) the raw content, modelled as a ZIP directory
    mapping an entry name to its UTF-8 decoded text. -/
structure HttpResponse where
  status_code : Int
  text : Str
  content : List (Str × Str)
deriving DecidableEq, Repr

/-! ## `UrlEMT` -/

def tripsTok : Str := chars "trips"

def aspxTok : Str := chars "aspx"

def hrefTok : Str := chars "href=\""

def connErrMsg : Str := chars "No se pudo conectar con la página de la EMT."

/-- Semantics of matching the group of the Python regex
    `(href=")(?P<link>.*trips.*aspx)` at the position just after `href="`:
    `.` does not match a newline, so the group lives inside the current line;
    the greedy `.*trips.*aspx` makes the group run from the start of the line
    fragment to the end of the *last* `aspx` occurrence in it, and a match
    exists iff the first `trips` occurrence ends no later than the start of
    that last `aspx` occurrence. -/
def matchGroup (cs : Str) : Option Str :=
  let line := cs.takeWhile (fun c => c ≠ '\n')
  match firstIdx? tripsTok line, lastIdx? aspxTok line with
  | some t, some a => if t + 5 ≤ a then some (line.take (a + 4)) else none
  | _, _ => none

/-- `re.finditer` of `(href=")(?P<link>.*trips.*aspx)` over the whole body:
    scan left to right, emit the group of each non-overlapping match and
    resume right after the match's end, else advance one character.  The fuel
    argument (always instantiated with the text length) only makes the
    recursion structural; every step consumes at least one character. -/
def scanAux : Nat → Str → List Str
  | 0, _ => []
  | _ + 1, [] => []
  | n + 1, c :: t =>
    if hrefTok.isPrefixOf (c :: t) then
      match matchGroup (t.drop 5) with
      | some g => g :: scanAux n (t.drop (5 + g.length))
      | none => scanAux n t
    else scanAux n t

/-- `get_links` (the helper closed over by `select_valid_urls`): the set of
    all groups produced by `finditer`.  A Python `set` is modelled as a
    duplicate-free list (one canonical iteration order). -/
def get_links (html : Str) : List Str := (scanAux html.length html).dedup

/-- `UrlEMT.select_valid_urls`: raises `ConnectionError` on a non-200 index
    response, otherwise collects the valid links from the body. -/
def select_valid_urls (r : HttpResponse) : Except PyErr (List Str) :=
  if r.status_code ≠ 200 then .error (.connectionError connErrMsg)
  else .ok (get_links r.text)

/-- The `UrlEMT` instance state: its `_valid_urls` set. -/
structure UrlEMT where
  valid_urls : List Str
deriving DecidableEq, Repr

/-- `UrlEMT.__init__`, parameterised by the index-page HTTP response. -/
def urlEMT_init (r : HttpResponse) : Except PyErr UrlEMT :=
  (select_valid_urls r).map UrlEMT.mk

/-- The literal core of the f-string pattern `.*trips_{year}_{month:02}.*`
    (for the arguments exercised here the formatted tokens contain no regex
    metacharacters, so the pattern matches as a plain substring). -/
def urlPat (month year : PyVal) : Str :=
  chars "trips_" ++ pyStr year ++ '_' :: format02 month

/-- `re.search(".*PAT.*", l).group()` for a metacharacter-free `PAT`: since
    `.` does not cross newlines, the match — when some line of `l` contains
    `PAT` — is the whole first such line. -/
def searchPat (pat l : Str) : Option Str :=
  (splitOnChar '\n' l).find? (fun line => occursIn pat line)

/-- The message of the `ValueError` raised by `get_url`. -/
def lookupErrMsg (month year : PyVal) : Str :=
  chars " No existe un enlace para el mes " ++ pyStr month ++
    chars " del año 20" ++ pyStr year ++
    chars ". \nLos datos se encuentran disponibles para el periodo comprendido entre junio de 2021 y febrero de 2023."

/-- The fixed phrase naming the supported range inside `lookupErrMsg`. -/
def rangePhrase : Str := chars "junio de 2021 y febrero de 2023"

/-- `UrlEMT.get_url`: return the regex group of the first stored link whose
    search succeeds, else raise `ValueError` with the fixed range message.
    The compiled pattern `.*trips_\x7byear\x7d_\x7bmonth:02\x7d.*` is
    modelled as substring containment of its literal core, which is faithful
    whenever the formatted month and year tokens are regex-literal — in
    particular on the claims' integer month/year domain.  Months carrying
    regex metacharacters fall outside this definition's domain; `get_url_re`
    below models those under compiled-regex semantics. -/
def get_url (e : UrlEMT) (month year : PyVal) : Except PyErr Str :=
  match e.valid_urls.findSome? (searchPat (urlPat month year)) with
  | some g => .ok g
  | none => .error (.valueError (lookupErrMsg month year))

/-- Group 1 of `re.search("(trips.*)-", line)` inside one line: the leftmost
    match starts at the first `trips` occurrence (provided a `-` still
    follows it in the line), the greedy `.*` runs to the line's last `-`,
    and group 1 keeps everything strictly before that `-`. -/
def stemLine (line : Str) : Option Str :=
  match firstIdx? tripsTok line, lastIdx? ['-'] line with
  | some t, some d => if t + 5 ≤ d then some ((line.take d).drop t) else none
  | _, _ => none

/-- `re.search("(trips.*)-", url).group(1)` over a whole (possibly
    multi-line) string: the first line with a match wins. -/
def stemOf (url : Str) : Option Str := (splitOnChar '\n' url).findSome? stemLine

/-- Look an entry up in the modelled ZIP directory (`zipfile.ZipFile.open`). -/
def lookupZip (z : List (Str × Str)) (name : Str) : Option Str :=
  (z.find? (fun p => p.1 == name)).map Prod.snd

/-- `UrlEMT.get_csv`, parameterised by the archive HTTP response: resolve the
    link, check the download status, derive the inner CSV entry name from the
    link, read and decode it.  The returned `io.StringIO` is modelled by the
    text it carries. -/
def get_csv (e : UrlEMT) (r : HttpResponse) (month year : PyVal) :
    Except PyErr Str := do
  let url ← get_url e month year
  if r.status_code ≠ 200 then
    Except.error (.connectionError connErrMsg)
  else
    match stemOf url with
    | none => Except.error (.attributeError (chars "NoneType object has no attribute group"))
    | some st =>
      let filename := st ++ chars ".csv"
      match lookupZip r.content filename with
      | none => Except.error (.keyError filename)
      | some contents => Except.ok contents

/-! ## `BiciMad` -/

/-- A pandas cell value: missing (`NaN`/`NaT`), a float, an int, a string,
    or a datetime (modelled as an abstract `Nat` code). -/
inductive Cell where
  | na
  | flt (q : ℚ)
  | int (n : Int)
  | str (v : Str)
  | date (d : Nat)
deriving DecidableEq, Repr

/-- `pd.isna` on a cell. -/
def cellIsNa : Cell → Bool
  | .na => true
  | _ => false

/-- The trip table: named columns plus, per row, the index cell and the data
    cells (in column order).  `pandas` size/sum/value_counts ignore the
    index, which is why it is kept apart from the data cells. -/
structure DataFrame where
  colNames : List Str
  rows : List (Cell × List Cell)
deriving DecidableEq, Repr

/-- `df.size`: number of data elements, row count × column count. -/
def dfSize (df : DataFrame) : Nat := df.rows.length * df.colNames.length

/-- Position of the first element equal to `c` in a name list. -/
def findPos? (c : Str) : List Str → Option Nat
  | [] => none
  | n :: t => if n = c then some 0 else (findPos? c t).map (· + 1)

/-- Position of column `c` (`df[c]` resolves the first column of that name;
    a missing name raises `KeyError`). -/
def colIdx? (df : DataFrame) (c : Str) : Option Nat :=
  findPos? c df.colNames

/-- `df[c]`: the list of cells of column `c`. -/
def getCol (df : DataFrame) (c : Str) : Except PyErr (List Cell) :=
  match colIdx? df c with
  | none => .error (.keyError c)
  | some i => .ok (df.rows.map (fun r => r.2.getD i Cell.na))

/-- The fixed 15-column allow-list of `BiciMad.get_data`. -/
def columns : List Str :=
  [chars "idBike", chars "fleet", chars "trip_minutes",
   chars "geolocation_unlock", chars "address_unlock", chars "unlock_date",
   chars "locktype", chars "unlocktype", chars "geolocation_lock",
   chars "address_lock", chars "lock_date", chars "station_unlock",
   chars "unlock_station_name", chars "station_lock",
   chars "lock_station_name"]

/-- `pd.read_csv(csv, delimiter=';', index_col=['fecha'])`, parameterised by
    the scalar-inference function `inferCell` that stands for pandas dtype
    inference on one field.  Blank lines are skipped, the first line is the
    header, the `fecha` column becomes the index (a missing `fecha` raises). -/
def read_csv_semicolon (inferCell : Str → Cell) (txt : Str) :
    Except PyErr DataFrame :=
  let lines := (splitOnChar '\n' txt).filter (fun l => !l.isEmpty)
  match lines with
  | [] => .error (.valueError (chars "No columns to parse from file"))
  | header :: rest =>
    let hdr := splitOnChar ';' header
    match hdr.findIdx? (fun n => n == chars "fecha") with
    | none => .error (.valueError (chars "Index fecha invalid"))
    | some j =>
      .ok { colNames := hdr.eraseIdx j,
            rows := rest.map (fun line =>
              let fs := splitOnChar ';' line
              (inferCell (fs.getD j []), (fs.eraseIdx j).map inferCell)) }

/-- Drop the columns whose name is in `delete` (`df.drop(columns=delete)`). -/
def dropCols (df : DataFrame) (delete : List Str) : DataFrame :=
  { colNames := df.colNames.filter (fun c => !delete.contains c),
    rows := df.rows.map (fun r =>
      (r.1, (df.colNames.zip r.2).filterMap
        (fun p => if delete.contains p.1 then none else some p.2))) }

/-- `pd.to_datetime(x, errors='coerce')` on one index cell, parameterised by
    the datetime parser: an unparsable value becomes null (NaT) instead of
    raising. -/
def coerceDate (parseDate : Cell → Option Nat) (c : Cell) : Cell :=
  match parseDate c with
  | some d => Cell.date d
  | none => Cell.na

/-- `BiciMad.get_data` from the CSV text onwards (the HTTP/ZIP acquisition
    of the text is `UrlEMT.get_csv`): parse with `;` and index `fecha`, build
    the delete list of columns outside the allow-list, drop them, then
    coerce the index to datetimes. -/
def get_data (inferCell : Str → Cell) (parseDate : Cell → Option Nat)
    (txt : Str) : Except PyErr DataFrame := do
  let df ← read_csv_semicolon inferCell txt
  let delete := df.colNames.foldl
    (fun acc c => if columns.contains c then acc else acc ++ [c]) []
  let df2 := dropCols df delete
  Except.ok { df2 with rows := df2.rows.map (fun r => (coerceDate parseDate r.1, r.2)) }

/-- Python `int(q)` on a float: truncation toward zero. -/
def pyTrunc (q : ℚ) : Int := q.num.sign * (q.num.natAbs / q.den : Nat)

/-- The body of the cleaning lambda
    `lambda x: str(int(x)) if isinstance(x, float) and not pd.isna(x) else x`:
    only a non-NaN float is replaced, by the string of its integer
    truncation; every other value (NaN included) is untouched. -/
def mapIdCell : Cell → Cell
  | .flt q => .str (chars (toString (pyTrunc q)))
  | x => x

/-- Drop the rows in which every data cell is null
    (`df.dropna(axis=0, how='all')`). -/
def dropnaAll (df : DataFrame) : DataFrame :=
  { df with rows := df.rows.filter (fun r => !r.2.all cellIsNa) }

/-- Apply the cleaning lambda to the cell at position `i` of one row. -/
def rowMapAt (i : Nat) (r : Cell × List Cell) : Cell × List Cell :=
  (r.1, r.2.set i (mapIdCell (r.2.getD i Cell.na)))

/-- `df[c] = df[c].map(f)`: reading a missing column raises `KeyError`,
    otherwise the cell at the column's position is rewritten in every row. -/
def setColMap (df : DataFrame) (c : Str) : Except PyErr DataFrame :=
  match colIdx? df c with
  | none => .error (.keyError c)
  | some i => .ok { df with rows := df.rows.map (rowMapAt i) }

/-- The four identifier columns normalised by `clean`. -/
def idCols : List Str :=
  [chars "fleet", chars "idBike", chars "station_lock", chars "station_unlock"]

/-- `BiciMad.clean`: drop all-null rows, then map the cleaning lambda over
    the four identifier columns in order. -/
def clean (df : DataFrame) : Except PyErr DataFrame :=
  idCols.foldlM setColMap (dropnaAll df)

/-- The `BiciMad` instance state. -/
structure BiciMad where
  _month : Int
  _year : Int
  _data : DataFrame
deriving DecidableEq, Repr

/-- The `BiciMad.data` property: run `clean` on the held table as a side
    effect, then return the table.  Mutation is modelled by also returning
    the updated instance. -/
def BiciMad.data (b : BiciMad) : Except PyErr (DataFrame × BiciMad) := do
  let d ← clean b._data
  pure (d, { b with _data := d })

/-- One field of the summary `pd.Series` (the six slots carry values of
    different Python types). -/
inductive SField where
  | s (v : Str)
  | i (n : Int)
  | n (k : Nat)
  | q (x : ℚ)
  | c (x : Cell)
deriving DecidableEq, Repr

/-- `df['trip_minutes'].sum()` on a numeric column: add the numeric cells,
    skipping NaN; a non-numeric cell makes the sum a `TypeError` (none). -/
def colSumNum : List Cell → Option ℚ
  | [] => some 0
  | Cell.na :: t => colSumNum t
  | Cell.flt q :: t => (colSumNum t).map (q + ·)
  | Cell.int n :: t => (colSumNum t).map ((n : ℚ) + ·)
  | _ => none

/-- Insert into a count-descending list, after the existing entries of the
    same count (the stable order pandas shows for ties). -/
def insertDesc (p : Cell × Nat) : List (Cell × Nat) → List (Cell × Nat)
  | [] => [p]
  | q :: t => if q.2 < p.2 then p :: q :: t else q :: insertDesc p t

/-- Sort count pairs by descending count. -/
def sortDesc (l : List (Cell × Nat)) : List (Cell × Nat) :=
  l.foldr insertDesc []

/-- `series.value_counts()`: count each distinct non-null value and sort the
    (value, count) pairs by descending count. -/
def value_counts (cells : List Cell) : List (Cell × Nat) :=
  let vals := cells.filter (fun c => !cellIsNa c)
  sortDesc (vals.dedup.map (fun k => (k, vals.count k)))

/-- `BiciMad.resume`: the six-field summary series, built from the cleaned
    table returned by the `data` property. -/
def resume (b : BiciMad) : Except PyErr (List (Str × SField)) := do
  let p ← b.data
  let d := p.1
  let tmCol ← getCol d (chars "trip_minutes")
  let auCol ← getCol d (chars "address_unlock")
  let s ← match colSumNum tmCol with
    | none => Except.error (PyErr.typeError (chars "unsupported operand type"))
    | some q => pure q
  match value_counts auCol with
  | [] => Except.error (PyErr.indexError (chars "index 0 is out of bounds"))
  | (v, n) :: _ =>
    pure [(chars "year", SField.s (chars "20" ++ chars (toString b._year))),
          (chars "month", SField.i b._month),
          (chars "total_uses", SField.n (dfSize d)),
          (chars "total_time", SField.q (s / 60)),
          (chars "most_popular_station", SField.c v),
          (chars "uses_from_most_popular", SField.n n)]

/-! ## Occurrence lemmas for the search primitives -/

theorem occursIn_iff {pat s : Str} : occursIn pat s = true ↔ pat <:+: s := by
  induction s with
  | nil =>
    simp only [occursIn, List.isEmpty_iff, List.infix_nil]
  | cons c t ih =>
    simp only [occursIn, Bool.or_eq_true, List.infix_cons_iff, ih,
      List.isPrefixOf_iff_prefix]

theorem occursAt_zero {pat s : Str} : occursAt pat s 0 = pat.isPrefixOf s := by
  simp [occursAt]

theorem occursAt_cons_succ {pat : Str} {c : Char} {t : Str} {i : Nat} :
    occursAt pat (c :: t) (i + 1) = occursAt pat t i := by
  simp [occursAt]

theorem occursAt_nil_of_ne {pat : Str} (hne : pat ≠ []) (i : Nat) :
    occursAt pat [] i = false := by
  simp only [occursAt, List.drop_nil]
  cases pat with
  | nil => exact absurd rfl hne
  | cons p ps => simp [List.isPrefixOf]

theorem firstIdx?_cons (pat : Str) (c : Char) (t : Str) :
    firstIdx? pat (c :: t) =
      if pat.isPrefixOf (c :: t) then some 0
      else (firstIdx? pat t).map (· + 1) := rfl

theorem lastIdx?_cons (pat : Str) (c : Char) (t : Str) :
    lastIdx? pat (c :: t) =
      match lastIdx? pat t with
      | some i => some (i + 1)
      | none => if pat.isPrefixOf (c :: t) then some 0 else none := rfl

theorem firstIdx?_eq_some {pat s : Str} (hne : pat ≠ []) {i : Nat}
    (h : firstIdx? pat s = some i) :
    occursAt pat s i = true ∧ ∀ j, occursAt pat s j = true → i ≤ j := by
  induction s generalizing i with
  | nil =>
    have hp : ¬ pat.isEmpty = true := by simpa [List.isEmpty_iff] using hne
    simp [firstIdx?, hp] at h
  | cons c t ih =>
    rw [firstIdx?_cons] at h
    by_cases hp : pat.isPrefixOf (c :: t) = true
    · rw [if_pos hp, Option.some.injEq] at h
      subst h
      exact ⟨by simpa [occursAt_zero] using hp, fun j _ => Nat.zero_le j⟩
    · rw [if_neg hp, Option.map_eq_some'] at h
      obtain ⟨i', hi', rfl⟩ := h
      obtain ⟨h1, h2⟩ := ih hi'
      refine ⟨by simpa [occursAt_cons_succ] using h1, ?_⟩
      intro j hj
      match j with
      | 0 =>
        rw [occursAt_zero] at hj
        exact absurd hj hp
      | j + 1 => exact Nat.succ_le_succ (h2 j (by simpa [occursAt_cons_succ] using hj))

theorem firstIdx?_eq_none {pat s : Str} (hne : pat ≠ [])
    (h : firstIdx? pat s = none) : ∀ i, occursAt pat s i = false := by
  induction s with
  | nil => exact occursAt_nil_of_ne hne
  | cons c t ih =>
    intro i
    rw [firstIdx?_cons] at h
    by_cases hp : pat.isPrefixOf (c :: t) = true
    · rw [if_pos hp] at h
      exact absurd h (by simp)
    · rw [if_neg hp, Option.map_eq_none'] at h
      match i with
      | 0 =>
        rw [occursAt_zero, ← Bool.not_eq_true]
        exact hp
      | i + 1 =>
        rw [occursAt_cons_succ]
        exact ih h i

theorem lastIdx?_eq_none {pat s : Str} (hne : pat ≠ [])
    (h : lastIdx? pat s = none) : ∀ i, occursAt pat s i = false := by
  induction s with
  | nil => exact occursAt_nil_of_ne hne
  | cons c t ih =>
    intro i
    rw [lastIdx?_cons] at h
    rcases ht : lastIdx? pat t with _ | a
    · rw [ht] at h
      by_cases hp : pat.isPrefixOf (c :: t) = true
      · rw [if_pos hp] at h
        exact absurd h (by simp)
      · match i with
        | 0 =>
          rw [occursAt_zero, ← Bool.not_eq_true]
          exact hp
        | i + 1 =>
          rw [occursAt_cons_succ]
          exact ih ht i
    · rw [ht] at h
      exact absurd h (by simp)

theorem lastIdx?_eq_some {pat s : Str} (hne : pat ≠ []) {a : Nat}
    (h : lastIdx? pat s = some a) :
    occursAt pat s a = true ∧ ∀ j, occursAt pat s j = true → j ≤ a := by
  induction s generalizing a with
  | nil =>
    have hp : ¬ pat.isEmpty = true := by simpa [List.isEmpty_iff] using hne
    simp [lastIdx?, hp] at h
  | cons c t ih =>
    rw [lastIdx?_cons] at h
    rcases ht : lastIdx? pat t with _ | i
    · rw [ht] at h
      by_cases hp : pat.isPrefixOf (c :: t) = true
      · rw [if_pos hp, Option.some.injEq] at h
        subst h
        refine ⟨by simpa [occursAt_zero] using hp, ?_⟩
        intro j hj
        match j with
        | 0 => exact Nat.le_refl 0
        | j + 1 =>
          have := lastIdx?_eq_none hne ht j
          rw [occursAt_cons_succ] at hj
          rw [hj] at this
          exact absurd this (by simp)
      · rw [if_neg hp] at h
        exact absurd h (by simp)
    · rw [ht, Option.some.injEq] at h
      subst h
      obtain ⟨h1, h2⟩ := ih ht
      refine ⟨by simpa [occursAt_cons_succ] using h1, ?_⟩
      intro j hj
      match j with
      | 0 => exact Nat.zero_le _
      | j + 1 => exact Nat.succ_le_succ (h2 j (by simpa [occursAt_cons_succ] using hj))

theorem occursAt_le_length {pat s : Str} (hne : pat ≠ []) {i : Nat}
    (h : occursAt pat s i = true) : i + pat.length ≤ s.length := by
  have hp : pat <+: s.drop i := List.isPrefixOf_iff_prefix.mp h
  have hlen : pat.length ≤ s.length - i := by
    simpa [List.length_drop] using hp.length_le
  have hppos : 0 < pat.length := List.length_pos.mpr hne
  omega

theorem occursAt_getElem? {pat s : Str} {i : Nat} (h : occursAt pat s i = true)
    {k : Nat} (hk : k < pat.length) : s[i + k]? = pat[k]? := by
  have hp : pat <+: s.drop i := List.isPrefixOf_iff_prefix.mp h
  have he : pat = (s.drop i).take pat.length := List.prefix_iff_eq_take.mp hp
  conv_rhs => rw [he]
  rw [List.getElem?_take, if_pos hk, List.getElem?_drop]


/-! ## Lemmas on `splitOnChar` and `searchPat` -/

theorem splitOnChar_of_not_mem {sep : Char} {l : Str} (h : ∀ c ∈ l, c ≠ sep) :
    splitOnChar sep l = [l] := by
  induction l with
  | nil => rfl
  | cons c t ih =>
    have hc : ¬ (c = sep) := h c (by simp)
    rw [splitOnChar, if_neg hc, ih (fun x hx => h x (by simp [hx]))]

theorem splitOnChar_parts {sep : Char} :
    ∀ l : Str, (∀ x ∈ splitOnChar sep l, x <:+: l) ∧
      (∀ y ys, splitOnChar sep l = y :: ys → y <+: l) := by
  intro l
  induction l with
  | nil =>
    constructor
    · intro x hx
      simp only [splitOnChar, List.mem_singleton] at hx
      simp [hx]
    · intro y ys hy
      simp only [splitOnChar, List.cons.injEq] at hy
      simp [hy.1]
  | cons c t ih =>
    by_cases hc : c = sep
    · rw [splitOnChar, if_pos hc]
      constructor
      · intro x hx
        rcases List.mem_cons.mp hx with h0 | h0
        · simp [h0]
        · exact List.infix_cons (ih.1 x h0)
      · intro y ys hy
        rw [List.cons.injEq] at hy
        simp [← hy.1]
    · rw [splitOnChar, if_neg hc]
      rcases hs : splitOnChar sep t with _ | ⟨p, ps⟩
      · constructor
        · intro x hx
          simp only [List.mem_singleton] at hx
          subst hx
          exact ⟨[], t, rfl⟩
        · intro y ys hy
          rw [List.cons.injEq] at hy
          exact hy.1 ▸ ⟨t, rfl⟩
      · have hp : p <+: t := ih.2 p ps hs
        constructor
        · intro x hx
          rcases List.mem_cons.mp hx with h0 | h0
          · subst h0
            exact (List.cons_prefix_cons.mpr ⟨rfl, hp⟩).isInfix
          · rw [hs] at ih
            exact List.infix_cons (ih.1 x (List.mem_cons_of_mem p h0))
        · intro y ys hy
          rw [List.cons.injEq] at hy
          exact hy.1 ▸ List.cons_prefix_cons.mpr ⟨rfl, hp⟩

theorem searchPat_eq_none_of_not_occursIn {pat l : Str}
    (h : occursIn pat l = false) : searchPat pat l = none := by
  rw [searchPat, List.find?_eq_none]
  intro line hline
  intro hocc
  have h1 : pat <:+: line := occursIn_iff.mp hocc
  have h2 : line <:+: l := (splitOnChar_parts l).1 line hline
  have h3 : occursIn pat l = true := occursIn_iff.mpr (h1.trans h2)
  rw [h] at h3
  exact absurd h3 (by simp)

theorem searchPat_no_newline {pat l : Str} (h : ∀ c ∈ l, c ≠ '\n') :
    searchPat pat l = if occursIn pat l then some l else none := by
  rw [searchPat, splitOnChar_of_not_mem h]
  by_cases ho : occursIn pat l = true <;> simp [List.find?, ho]

/-- The `ValueError` message of `get_url` always carries the phrase naming
    the supported June 2021 – February 2023 range. -/
theorem lookupErrMsg_names_range (month year : PyVal) :
    ∃ s t, lookupErrMsg month year = s ++ rangePhrase ++ t := by
  refine ⟨chars " No existe un enlace para el mes " ++ pyStr month ++
    chars " del año 20" ++ pyStr year ++
    chars ". \nLos datos se encuentran disponibles para el periodo comprendido entre ",
    chars ".", ?_⟩
  simp [lookupErrMsg, rangePhrase, chars, List.append_assoc]

/-- C2: on a link set whose entries contain no newline (as every harvested
    link does), `get_url` returns a stored link containing the literal
    pattern `trips_<year>_<month:02>` whenever one exists, and it raises the
    `ValueError` carrying the fixed message naming the supported range
    exactly when no stored link contains the pattern. -/
theorem get_url_spec (e : UrlEMT) (month year : PyVal)
    (hnl : ∀ l ∈ e.valid_urls, ∀ c ∈ l, c ≠ '\n') :
    (∀ res, get_url e month year = .ok res →
      res ∈ e.valid_urls ∧ occursIn (urlPat month year) res = true) ∧
    ((∃ l ∈ e.valid_urls, occursIn (urlPat month year) l = true) →
      ∃ res, get_url e month year = .ok res) ∧
    ((∀ l ∈ e.valid_urls, occursIn (urlPat month year) l = false) ↔
      get_url e month year = .error (.valueError (lookupErrMsg month year))) ∧
    ∃ s t, lookupErrMsg month year = s ++ rangePhrase ++ t := by
  have hsearch : ∀ l ∈ e.valid_urls, searchPat (urlPat month year) l =
      if occursIn (urlPat month year) l then some l else none :=
    fun l hl => searchPat_no_newline (hnl l hl)
  refine ⟨?_, ?_, ⟨?_, ?_⟩, lookupErrMsg_names_range month year⟩
  · intro res hres
    rw [get_url] at hres
    rcases hf : e.valid_urls.findSome? (searchPat (urlPat month year)) with _ | g
    · rw [hf] at hres
      exact absurd hres (by simp)
    · rw [hf] at hres
      obtain ⟨l, hl, hsl⟩ := List.exists_of_findSome?_eq_some hf
      rw [hsearch l hl] at hsl
      by_cases ho : occursIn (urlPat month year) l = true
      · rw [if_pos ho, Option.some.injEq] at hsl
        have hrg : g = res := by simpa using hres
        subst hrg
        subst hsl
        exact ⟨hl, ho⟩
      · rw [if_neg ho] at hsl
        exact absurd hsl (by simp)
  · intro hex
    obtain ⟨l, hl, ho⟩ := hex
    rcases hf : e.valid_urls.findSome? (searchPat (urlPat month year)) with _ | g
    · have hn := List.findSome?_eq_none_iff.mp hf l hl
      rw [hsearch l hl, if_pos ho] at hn
      exact absurd hn (by simp)
    · exact ⟨g, by rw [get_url, hf]⟩
  · intro hall
    have hf : e.valid_urls.findSome? (searchPat (urlPat month year)) = none := by
      rw [List.findSome?_eq_none_iff]
      intro l hl
      rw [hsearch l hl, hall l hl]
      simp
    rw [get_url, hf]
  · intro herr l hl
    rcases hf : e.valid_urls.findSome? (searchPat (urlPat month year)) with _ | g
    · have hn := List.findSome?_eq_none_iff.mp hf l hl
      rw [hsearch l hl] at hn
      by_cases ho : occursIn (urlPat month year) l = true
      · rw [if_pos ho] at hn
        exact absurd hn (by simp)
      · simpa using ho
    · rw [get_url, hf] at herr
      exact absurd herr (by simp)

/-- The three links asserted by the repository's test fixture. -/
def testLinks : UrlEMT :=
  ⟨[chars "/getattachment/20b8509b-97a8-4831-b9d2-4900322e1714/trips_23_01_January-csv.aspx",
    chars "/getattachment/e1ea5e02-4ba9-471a-bb95-8cb327220b05/trips_22_03_March-csv.aspx",
    chars "/getattachment/ab3776ab-ba7f-4da3-bea6-e70c21c7d8be/trips_21_06_June-csv.aspx"]⟩

theorem get_url_spec_witness :
    (∀ l ∈ testLinks.valid_urls, ∀ c ∈ l, c ≠ '\n') ∧
    ((∀ res, get_url testLinks (.i 1) (.i 23) = .ok res →
      res ∈ testLinks.valid_urls ∧ occursIn (urlPat (.i 1) (.i 23)) res = true) ∧
    ((∃ l ∈ testLinks.valid_urls, occursIn (urlPat (.i 1) (.i 23)) l = true) →
      ∃ res, get_url testLinks (.i 1) (.i 23) = .ok res) ∧
    ((∀ l ∈ testLinks.valid_urls, occursIn (urlPat (.i 1) (.i 23)) l = false) ↔
      get_url testLinks (.i 1) (.i 23) =
        .error (.valueError (lookupErrMsg (.i 1) (.i 23)))) ∧
    ∃ s t, lookupErrMsg (.i 1) (.i 23) = s ++ rangePhrase ++ t) :=
  ⟨by decide, get_url_spec testLinks (.i 1) (.i 23) (by decide)⟩

/-! ## C3: malformed months under the compiled-regex semantics

The f-string pattern is compiled by `re.compile`, so a malformed month is
spliced into a *regex*, not a literal.  The following is a model of Python
regex matching on the subset that the spliced pattern can fall into when
its characters are regex-literal or the two metacharacters `.` and postfix
`*`: enough to be faithful on every input the C3 theorems mention. -/

/-- One regex atom of the modelled subset: a literal character or `.`
    (any character except a newline). -/
inductive RAtom where
  | ch (c : Char)
  | dot
deriving DecidableEq, Repr

/-- One piece of a pattern: an atom, or an atom under a postfix `*`. -/
inductive RPiece where
  | once (a : RAtom)
  | star (a : RAtom)
deriving DecidableEq, Repr

/-- How one pattern character reads as an atom: `.` is the wildcard; the
    regex special characters are outside the modelled subset (`none`);
    every other character is a literal. -/
def atomOf (c : Char) : Option RAtom :=
  if c = '.' then some RAtom.dot
  else if c ∈ ['*', '+', '?', '(', ')', '[', ']', '\x7b', '\x7d', '|', '^',
      '$', '\\'] then none
  else some (RAtom.ch c)

/-- Parse a pattern string of the modelled subset: a `*` acts on the
    preceding atom; `none` when the pattern leaves the subset. -/
def parseRegex : Str → Option (List RPiece)
  | [] => some []
  | c :: t =>
    match atomOf c with
    | none => none
    | some a =>
      match t with
      | [] => some [RPiece.once a]
      | c2 :: t2 =>
        if c2 = '*' then (parseRegex t2).map (fun ps => RPiece.star a :: ps)
        else (parseRegex (c2 :: t2)).map (fun ps => RPiece.once a :: ps)

/-- Does an atom match one character? -/
def pieceMatches : RAtom → Char → Bool
  | RAtom.dot, c => c ≠ '\n'
  | RAtom.ch x, c => x = c

/-- Does the pattern match some prefix of `s`?  The fuel (instantiated with
    `ps.length + s.length + 1`, which strictly dominates the recursion
    depth) only makes the backtracking recursion structural. -/
def rePrefixAux : Nat → List RPiece → Str → Bool
  | 0, _, _ => false
  | _ + 1, [], _ => true
  | _ + 1, RPiece.once _ :: _, [] => false
  | n + 1, RPiece.once a :: ps, c :: t => pieceMatches a c && rePrefixAux n ps t
  | n + 1, RPiece.star _ :: ps, [] => rePrefixAux n ps []
  | n + 1, RPiece.star a :: ps, c :: t =>
    rePrefixAux n ps (c :: t) ||
      (pieceMatches a c && rePrefixAux n (RPiece.star a :: ps) t)

def rePrefix (ps : List RPiece) (s : Str) : Bool :=
  rePrefixAux (ps.length + s.length + 1) ps s

/-- `re.search` truthiness: the pattern matches starting at some position. -/
def reSearch (ps : List RPiece) : Str → Bool
  | [] => rePrefix ps []
  | c :: t => rePrefix ps (c :: t) || reSearch ps t

/-- The full pattern string the source compiles:
    `fr".*trips_{year}_{month:02}.*"` (its literal core is `urlPat`). -/
def rePatStr (month year : PyVal) : Str :=
  chars ".*" ++ urlPat month year ++ chars ".*"

/-- `UrlEMT.get_url` under the compiled-regex semantics of the pattern, on
    the modelled subset: `none` when the formatted pattern falls outside the
    subset, otherwise the first stored link whose search succeeds (for a
    newline-free link the greedy leading and trailing `.*` make the returned
    group the whole link), or the `ValueError` with the fixed range message
    when no stored link matches. -/
def get_url_re (e : UrlEMT) (month year : PyVal) : Option (Except PyErr Str) :=
  match parseRegex (rePatStr month year) with
  | none => none
  | some ps =>
    some (match e.valid_urls.find? (fun l => reSearch ps l) with
      | some l => .ok l
      | none => .error (.valueError (lookupErrMsg month year)))

theorem parseRegex_dotstar_cons (rest : Str) :
    parseRegex ('.' :: '*' :: rest) =
      (parseRegex rest).map (fun ps => RPiece.star RAtom.dot :: ps) := rfl

theorem parseRegex_plain_append {mid : Str}
    (h : ∀ c ∈ mid, atomOf c = some (RAtom.ch c)) :
    parseRegex (mid ++ ['.', '*']) =
      some (mid.map (fun c => RPiece.once (RAtom.ch c)) ++
        [RPiece.star RAtom.dot]) := by
  induction mid with
  | nil => rfl
  | cons c mid2 ih =>
    have hc : atomOf c = some (RAtom.ch c) := h c (by simp)
    show parseRegex (c :: (mid2 ++ ['.', '*'])) = _
    rw [parseRegex, hc]
    cases mid2 with
    | nil => rfl
    | cons c2 mid3 =>
      have hc2 : atomOf c2 = some (RAtom.ch c2) := h c2 (by simp)
      have hc2ne : ¬ (c2 = '*') := by
        intro he
        rw [he] at hc2
        exact absurd hc2 (by decide)
      show (if c2 = '*' then _ else
        (parseRegex (c2 :: (mid3 ++ ['.', '*']))).map
          (fun ps => RPiece.once (RAtom.ch c) :: ps)) = _
      have ih2 := ih (fun x hx => h x (by simp [hx]))
      rw [List.cons_append] at ih2
      rw [if_neg hc2ne, ih2]
      rfl

theorem rePrefixAux_literal_elim :
    ∀ (n : Nat) (mid : Str) (ps : List RPiece) (s : Str),
    rePrefixAux n (mid.map (fun c => RPiece.once (RAtom.ch c)) ++ ps) s = true →
    mid.isPrefixOf s = true := by
  intro n
  induction n with
  | zero =>
    intro mid ps s h
    exact absurd h (by simp [rePrefixAux])
  | succ n ih =>
    intro mid ps s h
    cases mid with
    | nil => simp [List.isPrefixOf]
    | cons c mid2 =>
      cases s with
      | nil =>
        rw [List.map_cons, List.cons_append, rePrefixAux] at h
        exact absurd h (by simp)
      | cons c2 t =>
        rw [List.map_cons, List.cons_append, rePrefixAux,
          Bool.and_eq_true] at h
        obtain ⟨hpm, hrest⟩ := h
        have hcc : c = c2 := by
          simpa [pieceMatches] using hpm
        subst hcc
        have hpre := ih mid2 ps t hrest
        simp [List.isPrefixOf, hpre]

theorem rePrefixAux_starDot_elim :
    ∀ (n : Nat) (ps : List RPiece) (s : Str),
    rePrefixAux n (RPiece.star RAtom.dot :: ps) s = true →
    ∃ k n2, rePrefixAux n2 ps (s.drop k) = true := by
  intro n
  induction n with
  | zero =>
    intro ps s h
    exact absurd h (by simp [rePrefixAux])
  | succ n ih =>
    intro ps s h
    cases s with
    | nil =>
      rw [rePrefixAux] at h
      exact ⟨0, n, h⟩
    | cons c t =>
      rw [rePrefixAux, Bool.or_eq_true] at h
      rcases h with h | h
      · exact ⟨0, n, h⟩
      · rw [Bool.and_eq_true] at h
        obtain ⟨k, n2, h2⟩ := ih ps t h.2
        exact ⟨k + 1, n2, h2⟩

theorem reSearch_elim {ps : List RPiece} :
    ∀ {s : Str}, reSearch ps s = true →
    ∃ i n2, rePrefixAux n2 ps (s.drop i) = true := by
  intro s
  induction s with
  | nil =>
    intro h
    exact ⟨0, _, h⟩
  | cons c t ih =>
    intro h
    rw [reSearch, Bool.or_eq_true] at h
    rcases h with h | h
    · exact ⟨0, _, h⟩
    · obtain ⟨i, n2, h2⟩ := ih h
      exact ⟨i + 1, n2, h2⟩

theorem occursIn_of_occursAt {pat s : Str} {i : Nat}
    (h : occursAt pat s i = true) : occursIn pat s = true := by
  rw [occursIn_iff]
  have hp : pat <+: s.drop i := List.isPrefixOf_iff_prefix.mp h
  exact hp.isInfix.trans (List.drop_suffix i s).isInfix

/-- The compiled pattern `.*mid.*` for a literal `mid` finds nothing in a
    string that does not contain `mid`. -/
theorem reSearch_pattern_false {mid s : Str} (h : occursIn mid s = false) :
    reSearch (RPiece.star RAtom.dot ::
      (mid.map (fun c => RPiece.once (RAtom.ch c)) ++
        [RPiece.star RAtom.dot])) s = false := by
  rw [← Bool.not_eq_true]
  intro hs
  obtain ⟨i, n1, h1⟩ := reSearch_elim hs
  obtain ⟨k, n2, h2⟩ := rePrefixAux_starDot_elim n1 _ _ h1
  rw [List.drop_drop] at h2
  have hpre := rePrefixAux_literal_elim n2 mid _ _ h2
  have hocc : occursIn mid s = true := occursIn_of_occursAt hpre
  rw [h] at hocc
  exact absurd hocc (by simp)

theorem urlPat_plain {m : Str} {year : PyVal}
    (hm : ∀ c ∈ m, atomOf c = some (RAtom.ch c))
    (hy : ∀ c ∈ pyStr year, atomOf c = some (RAtom.ch c)) :
    ∀ c ∈ urlPat (.s m) year, atomOf c = some (RAtom.ch c) := by
  intro c hc
  rw [urlPat, List.mem_append] at hc
  rcases hc with hc | hc
  · rw [List.mem_append] at hc
    rcases hc with hc | hc
    · exact (by decide :
        ∀ x ∈ chars "trips_", atomOf x = some (RAtom.ch x)) c hc
    · exact hy c hc
  rw [List.mem_cons] at hc
  rcases hc with hc | hc
  · rw [hc]
    decide
  · have h2 : c ∈ (if m.length < 2 then
        m ++ List.replicate (2 - m.length) '0' else m) := hc
    by_cases hlen : m.length < 2
    · rw [if_pos hlen] at h2
      rcases List.mem_append.mp h2 with h3 | h3
      · exact hm c h3
      · rw [List.eq_of_mem_replicate h3]
        decide
    · rw [if_neg hlen] at h2
      exact hm c h2

/-- C3 counterexample: the claim fails at the malformed month `'*'` with
    year 22 on the fixture link set.  The f-string is compiled as a regex,
    `f"{'*':02}"` formats to `*0`, and in `.*trips_22_*0.*` the `*`
    quantifies the underscore, so the pattern matches the March 2022 link
    (`…trips_22_03…`): the call returns a link and never reaches the
    no-link-matches branch, instead of failing through the `LookupError`
    path as claimed. -/
theorem get_url_malformed_counterexample :
    format02 (.s (chars "*")) = chars "*0" ∧
    get_url_re testLinks (.s (chars "*")) (.i 22) =
      some (.ok (chars
        "/getattachment/e1ea5e02-4ba9-471a-bb95-8cb327220b05/trips_22_03_March-csv.aspx")) ∧
    get_url_re testLinks (.s (chars "*")) (.i 22) ≠
      some (.error (.valueError (lookupErrMsg (.s (chars "*")) (.i 22)))) := by
  refine ⟨by decide, by decide, by decide⟩

/-- C3 (amended): a malformed (non-numeric) month whose characters — like
    the year token's — are regex-literal is not filtered by any earlier
    validation or formatting step: under the compiled-pattern semantics,
    whenever no cached link contains the formatted pattern, the call reaches
    the no-link-matches branch and raises the very same `ValueError` naming
    the June 2021 – February 2023 range that out-of-range numeric months
    produce.  (For months carrying regex metacharacters the original claim
    fails, since the f-string is compiled as a regex: see the
    counterexample.) -/
theorem get_url_malformed_amended (e : UrlEMT) (m : Str) (year : PyVal)
    (hm : ∀ c ∈ m, atomOf c = some (RAtom.ch c))
    (hy : ∀ c ∈ pyStr year, atomOf c = some (RAtom.ch c))
    (hno : ∀ l ∈ e.valid_urls, occursIn (urlPat (.s m) year) l = false) :
    get_url_re e (.s m) year =
      some (.error (.valueError (lookupErrMsg (.s m) year))) ∧
    (∃ s t, lookupErrMsg (.s m) year = s ++ rangePhrase ++ t) := by
  have hplain := urlPat_plain hm hy
  have hparse : parseRegex (rePatStr (.s m) year) =
      some (RPiece.star RAtom.dot ::
        ((urlPat (.s m) year).map (fun c => RPiece.once (RAtom.ch c)) ++
          [RPiece.star RAtom.dot])) := by
    rw [show rePatStr (.s m) year =
        '.' :: '*' :: (urlPat (.s m) year ++ ['.', '*']) from rfl,
      parseRegex_dotstar_cons, parseRegex_plain_append hplain]
    rfl
  have hfind : e.valid_urls.find? (fun l => reSearch (RPiece.star RAtom.dot ::
      ((urlPat (.s m) year).map (fun c => RPiece.once (RAtom.ch c)) ++
        [RPiece.star RAtom.dot])) l) = none := by
    rw [List.find?_eq_none]
    intro l hl
    simp [reSearch_pattern_false (hno l hl)]
  refine ⟨?_, lookupErrMsg_names_range _ _⟩
  have hstep : get_url_re e (.s m) year =
      some (match e.valid_urls.find? (fun l => reSearch (RPiece.star RAtom.dot ::
          ((urlPat (.s m) year).map (fun c => RPiece.once (RAtom.ch c)) ++
            [RPiece.star RAtom.dot])) l) with
        | some l => Except.ok l
        | none => Except.error (PyErr.valueError (lookupErrMsg (.s m) year))) := by
    rw [get_url_re, hparse]
  rw [hstep, hfind]

theorem get_url_malformed_amended_witness :
    (∀ c ∈ chars "patata", atomOf c = some (RAtom.ch c)) ∧
    (∀ c ∈ pyStr (.i 22), atomOf c = some (RAtom.ch c)) ∧
    (∀ l ∈ testLinks.valid_urls,
      occursIn (urlPat (.s (chars "patata")) (.i 22)) l = false) ∧
    (get_url_re testLinks (.s (chars "patata")) (.i 22) =
      some (.error (.valueError (lookupErrMsg (.s (chars "patata")) (.i 22)))) ∧
    ∃ s t, lookupErrMsg (.s (chars "patata")) (.i 22) =
      s ++ rangePhrase ++ t) :=
  ⟨by decide, by decide, by decide,
    get_url_malformed_amended testLinks (chars "patata") (.i 22)
      (by decide) (by decide) (by decide)⟩

/-! ## Lemmas on `clean` -/

theorem bindOk {α β : Type} (a : α) (k : α → Except PyErr β) :
    (Except.ok a : Except PyErr α) >>= k = k a := rfl

theorem bindErr {α β : Type} (e : PyErr) (k : α → Except PyErr β) :
    (Except.error e : Except PyErr α) >>= k = Except.error e := rfl

theorem clean_eq (df : DataFrame) :
    clean df =
      setColMap (dropnaAll df) (chars "fleet") >>= (fun d1 =>
      setColMap d1 (chars "idBike") >>= (fun d2 =>
      setColMap d2 (chars "station_lock") >>= (fun d3 =>
      setColMap d3 (chars "station_unlock")))) := by
  simp only [clean, idCols, List.foldlM_cons, List.foldlM_nil, bind_pure]

theorem findPos?_of_not_mem {c : Str} {ns : List Str} (h : c ∉ ns) :
    findPos? c ns = none := by
  induction ns with
  | nil => rfl
  | cons n t ih =>
    have hn : ¬ (n = c) := fun he => h (he ▸ List.mem_cons_self n t)
    rw [findPos?, if_neg hn, ih (fun hm => h (List.mem_cons_of_mem n hm))]
    rfl

theorem findPos?_eq_none {c : Str} {ns : List Str} (h : findPos? c ns = none) :
    c ∉ ns := by
  induction ns with
  | nil => simp
  | cons n t ih =>
    by_cases hn : n = c
    · rw [findPos?, if_pos hn] at h
      exact absurd h (by simp)
    · rw [findPos?, if_neg hn, Option.map_eq_none'] at h
      intro hm
      rcases List.mem_cons.mp hm with he | hm2
      · exact hn he.symm
      · exact ih h hm2

theorem findPos?_getElem {c : Str} {ns : List Str} {i : Nat}
    (h : findPos? c ns = some i) : ns[i]? = some c := by
  induction ns generalizing i with
  | nil => simp [findPos?] at h
  | cons n t ih =>
    by_cases hn : n = c
    · rw [findPos?, if_pos hn, Option.some.injEq] at h
      subst h
      simp [hn]
    · rw [findPos?, if_neg hn, Option.map_eq_some'] at h
      obtain ⟨i0, hi0, rfl⟩ := h
      simpa using ih hi0

theorem findPos?_isSome_of_mem {c : Str} {ns : List Str} (h : c ∈ ns) :
    ∃ i, findPos? c ns = some i := by
  rcases hf : findPos? c ns with _ | i
  · exact absurd h (findPos?_eq_none hf)
  · exact ⟨i, rfl⟩

theorem findPos?_ne {c c2 : Str} {ns : List Str} {i j : Nat}
    (h1 : findPos? c ns = some i) (h2 : findPos? c2 ns = some j)
    (hne : c ≠ c2) : i ≠ j := by
  intro he
  subst he
  have e1 := findPos?_getElem h1
  have e2 := findPos?_getElem h2
  rw [e1, Option.some.injEq] at e2
  exact hne e2

theorem setColMap_none {df : DataFrame} {c : Str} (h : colIdx? df c = none) :
    setColMap df c = .error (.keyError c) := by
  rw [setColMap, h]

theorem setColMap_some {df : DataFrame} {c : Str} {i : Nat}
    (h : colIdx? df c = some i) :
    setColMap df c = .ok { df with rows := df.rows.map (rowMapAt i) } := by
  rw [setColMap, h]

theorem setColMap_ok_elim {df df2 : DataFrame} {c : Str}
    (h : setColMap df c = .ok df2) :
    ∃ i, colIdx? df c = some i ∧
      df2 = { df with rows := df.rows.map (rowMapAt i) } := by
  rcases hc : colIdx? df c with _ | i
  · rw [setColMap, hc] at h
    exact absurd h (by simp)
  · rw [setColMap, hc, Except.ok.injEq] at h
    exact ⟨i, rfl, h.symm⟩

theorem mapIdCell_isNa (x : Cell) : cellIsNa (mapIdCell x) = cellIsNa x := by
  cases x <;> rfl

theorem mapIdCell_idem (x : Cell) : mapIdCell (mapIdCell x) = mapIdCell x := by
  cases x <;> rfl

theorem getD_set_eq {α : Type} (cs : List α) (i : Nat) (v d : α) :
    (cs.set i v).getD i d = if i < cs.length then v else d := by
  by_cases h : i < cs.length
  · rw [if_pos h, List.getD_eq_getElem?_getD, List.getElem?_set_self h]
    rfl
  · rw [if_neg h, List.set_eq_of_length_le (Nat.le_of_not_lt h),
      List.getD_eq_getElem?_getD, List.getElem?_eq_none (Nat.le_of_not_lt h)]
    rfl

theorem getD_set_ne {α : Type} (cs : List α) {i j : Nat} (h : i ≠ j) (v d : α) :
    (cs.set i v).getD j d = cs.getD j d := by
  rw [List.getD_eq_getElem?_getD, List.getElem?_set_ne h,
    ← List.getD_eq_getElem?_getD]

theorem set_getD_self {α : Type} (cs : List α) (i : Nat) (d : α) :
    cs.set i (cs.getD i d) = cs := by
  by_cases h : i < cs.length
  · apply List.ext_getElem?
    intro n
    by_cases hn : i = n
    · subst hn
      rw [List.getElem?_set_self h, List.getD_eq_getElem?_getD,
        List.getElem?_eq_getElem h]
      rfl
    · rw [List.getElem?_set_ne hn]
  · exact List.set_eq_of_length_le (Nat.le_of_not_lt h)

theorem all_set_congr {p : Cell → Bool} (cs : List Cell) (i : Nat) (v : Cell)
    (h : p v = p (cs.getD i Cell.na)) : (cs.set i v).all p = cs.all p := by
  induction cs generalizing i with
  | nil => rfl
  | cons c t ih =>
    match i with
    | 0 =>
      show (v :: t).all p = (c :: t).all p
      rw [List.all_cons, List.all_cons, h]
      rfl
    | i + 1 =>
      show (c :: t.set i v).all p = (c :: t).all p
      rw [List.all_cons, List.all_cons, ih i h]

theorem allNa_rowMapAt (i : Nat) (r : Cell × List Cell) :
    (rowMapAt i r).2.all cellIsNa = r.2.all cellIsNa :=
  all_set_congr r.2 i _ (mapIdCell_isNa _)

theorem rowMapAt_fst (i : Nat) (r : Cell × List Cell) :
    (rowMapAt i r).1 = r.1 := rfl

theorem getD_rowMapAt_self (i : Nat) (r : Cell × List Cell) :
    (rowMapAt i r).2.getD i Cell.na = mapIdCell (r.2.getD i Cell.na) := by
  show (r.2.set i (mapIdCell (r.2.getD i Cell.na))).getD i Cell.na = _
  rw [getD_set_eq]
  by_cases h : i < r.2.length
  · rw [if_pos h]
  · rw [if_neg h, List.getD_eq_getElem?_getD,
      List.getElem?_eq_none (Nat.le_of_not_lt h)]
    rfl

theorem getD_rowMapAt_ne {i j : Nat} (h : j ≠ i) (r : Cell × List Cell) :
    (rowMapAt j r).2.getD i Cell.na = r.2.getD i Cell.na :=
  getD_set_ne r.2 h _ _

theorem rowMapAt_eq_self_of_fixed {i : Nat} {r : Cell × List Cell}
    (h : mapIdCell (r.2.getD i Cell.na) = r.2.getD i Cell.na) :
    rowMapAt i r = r := by
  show (r.1, r.2.set i (mapIdCell (r.2.getD i Cell.na))) = r
  rw [h, set_getD_self]

/-- One full pass of the four identifier-column maps over a row is
    idempotent, provided the four column positions are pairwise distinct. -/
theorem quad_rowMap_idem {i1 i2 i3 i4 : Nat}
    (h12 : i1 ≠ i2) (h13 : i1 ≠ i3) (h14 : i1 ≠ i4)
    (h23 : i2 ≠ i3) (h24 : i2 ≠ i4) (h34 : i3 ≠ i4)
    (r : Cell × List Cell) :
    rowMapAt i4 (rowMapAt i3 (rowMapAt i2 (rowMapAt i1
      (rowMapAt i4 (rowMapAt i3 (rowMapAt i2 (rowMapAt i1 r))))))) =
    rowMapAt i4 (rowMapAt i3 (rowMapAt i2 (rowMapAt i1 r))) := by
  set s := rowMapAt i4 (rowMapAt i3 (rowMapAt i2 (rowMapAt i1 r))) with hs
  have f1 : mapIdCell (s.2.getD i1 Cell.na) = s.2.getD i1 Cell.na := by
    rw [hs, getD_rowMapAt_ne (Ne.symm h14), getD_rowMapAt_ne (Ne.symm h13),
      getD_rowMapAt_ne (Ne.symm h12), getD_rowMapAt_self, mapIdCell_idem]
  have f2 : mapIdCell (s.2.getD i2 Cell.na) = s.2.getD i2 Cell.na := by
    rw [hs, getD_rowMapAt_ne (Ne.symm h24), getD_rowMapAt_ne (Ne.symm h23),
      getD_rowMapAt_self, mapIdCell_idem]
  have f3 : mapIdCell (s.2.getD i3 Cell.na) = s.2.getD i3 Cell.na := by
    rw [hs, getD_rowMapAt_ne (Ne.symm h34), getD_rowMapAt_self, mapIdCell_idem]
  have f4 : mapIdCell (s.2.getD i4 Cell.na) = s.2.getD i4 Cell.na := by
    rw [hs, getD_rowMapAt_self, mapIdCell_idem]
  rw [rowMapAt_eq_self_of_fixed f1, rowMapAt_eq_self_of_fixed f2,
    rowMapAt_eq_self_of_fixed f3, rowMapAt_eq_self_of_fixed f4]


/-- Forward computation of `clean` when the four identifier columns resolve
    to positions `i1 … i4`. -/
theorem clean_ok_char {d : DataFrame} {i1 i2 i3 i4 : Nat}
    (hc1 : findPos? (chars "fleet") d.colNames = some i1)
    (hc2 : findPos? (chars "idBike") d.colNames = some i2)
    (hc3 : findPos? (chars "station_lock") d.colNames = some i3)
    (hc4 : findPos? (chars "station_unlock") d.colNames = some i4) :
    clean d = .ok ⟨d.colNames,
      ((((d.rows.filter (fun r => !r.2.all cellIsNa)).map (rowMapAt i1)).map
        (rowMapAt i2)).map (rowMapAt i3)).map (rowMapAt i4)⟩ := by
  have s1 : setColMap (dropnaAll d) (chars "fleet") =
      .ok ⟨d.colNames,
        (d.rows.filter (fun r => !r.2.all cellIsNa)).map (rowMapAt i1)⟩ :=
    setColMap_some (show colIdx? (dropnaAll d) (chars "fleet") = some i1 from hc1)
  have s2 : setColMap (⟨d.colNames,
        (d.rows.filter (fun r => !r.2.all cellIsNa)).map (rowMapAt i1)⟩ :
        DataFrame) (chars "idBike") =
      .ok ⟨d.colNames,
        ((d.rows.filter (fun r => !r.2.all cellIsNa)).map (rowMapAt i1)).map
          (rowMapAt i2)⟩ :=
    setColMap_some (show colIdx? (⟨d.colNames,
      (d.rows.filter (fun r => !r.2.all cellIsNa)).map (rowMapAt i1)⟩ :
      DataFrame) (chars "idBike") = some i2 from hc2)
  have s3 : setColMap (⟨d.colNames,
        ((d.rows.filter (fun r => !r.2.all cellIsNa)).map (rowMapAt i1)).map
          (rowMapAt i2)⟩ : DataFrame) (chars "station_lock") =
      .ok ⟨d.colNames,
        (((d.rows.filter (fun r => !r.2.all cellIsNa)).map (rowMapAt i1)).map
          (rowMapAt i2)).map (rowMapAt i3)⟩ :=
    setColMap_some (show colIdx? (⟨d.colNames,
      ((d.rows.filter (fun r => !r.2.all cellIsNa)).map (rowMapAt i1)).map
        (rowMapAt i2)⟩ : DataFrame) (chars "station_lock") = some i3 from hc3)
  have s4 : setColMap (⟨d.colNames,
        (((d.rows.filter (fun r => !r.2.all cellIsNa)).map (rowMapAt i1)).map
          (rowMapAt i2)).map (rowMapAt i3)⟩ : DataFrame)
        (chars "station_unlock") =
      .ok ⟨d.colNames,
        ((((d.rows.filter (fun r => !r.2.all cellIsNa)).map (rowMapAt i1)).map
          (rowMapAt i2)).map (rowMapAt i3)).map (rowMapAt i4)⟩ :=
    setColMap_some (show colIdx? (⟨d.colNames,
      (((d.rows.filter (fun r => !r.2.all cellIsNa)).map (rowMapAt i1)).map
        (rowMapAt i2)).map (rowMapAt i3)⟩ : DataFrame)
      (chars "station_unlock") = some i4 from hc4)
  rw [clean_eq, s1]
  simp only [bindOk]
  rw [s2]
  simp only [bindOk]
  rw [s3]
  simp only [bindOk]
  rw [s4]

/-- Decomposition of a successful `clean`. -/
theorem clean_ok_elim {df df2 : DataFrame} (h : clean df = .ok df2) :
    ∃ i1 i2 i3 i4,
      findPos? (chars "fleet") df.colNames = some i1 ∧
      findPos? (chars "idBike") df.colNames = some i2 ∧
      findPos? (chars "station_lock") df.colNames = some i3 ∧
      findPos? (chars "station_unlock") df.colNames = some i4 ∧
      df2 = ⟨df.colNames,
        ((((df.rows.filter (fun r => !r.2.all cellIsNa)).map (rowMapAt i1)).map
          (rowMapAt i2)).map (rowMapAt i3)).map (rowMapAt i4)⟩ := by
  rw [clean_eq] at h
  rcases e1 : setColMap (dropnaAll df) (chars "fleet") with x1 | d1
  · rw [e1, bindErr] at h
    exact absurd h (by simp)
  rw [e1, bindOk] at h
  rcases e2 : setColMap d1 (chars "idBike") with x2 | d2
  · rw [e2, bindErr] at h
    exact absurd h (by simp)
  rw [e2, bindOk] at h
  rcases e3 : setColMap d2 (chars "station_lock") with x3 | d3
  · rw [e3, bindErr] at h
    exact absurd h (by simp)
  rw [e3, bindOk] at h
  obtain ⟨i1, hc1, hd1⟩ := setColMap_ok_elim e1
  subst hd1
  obtain ⟨i2, hc2, hd2⟩ := setColMap_ok_elim e2
  subst hd2
  obtain ⟨i3, hc3, hd3⟩ := setColMap_ok_elim e3
  subst hd3
  obtain ⟨i4, hc4, hd4⟩ := setColMap_ok_elim h
  refine ⟨i1, i2, i3, i4, hc1, hc2, hc3, hc4, ?_⟩
  rw [hd4]
  rfl

/-- `clean` is idempotent: a cleaned table cleans to itself. -/
theorem clean_idempotent {df df2 : DataFrame} (h : clean df = .ok df2) :
    clean df2 = .ok df2 := by
  obtain ⟨i1, i2, i3, i4, hc1, hc2, hc3, hc4, hdf⟩ := clean_ok_elim h
  have h12 : i1 ≠ i2 := findPos?_ne hc1 hc2 (by decide)
  have h13 : i1 ≠ i3 := findPos?_ne hc1 hc3 (by decide)
  have h14 : i1 ≠ i4 := findPos?_ne hc1 hc4 (by decide)
  have h23 : i2 ≠ i3 := findPos?_ne hc2 hc3 (by decide)
  have h24 : i2 ≠ i4 := findPos?_ne hc2 hc4 (by decide)
  have h34 : i3 ≠ i4 := findPos?_ne hc3 hc4 (by decide)
  have hcols : df2.colNames = df.colNames := by rw [hdf]
  have hrows : df2.rows =
      ((((df.rows.filter (fun r => !r.2.all cellIsNa)).map (rowMapAt i1)).map
        (rowMapAt i2)).map (rowMapAt i3)).map (rowMapAt i4) := by rw [hdf]
  have hc1a : findPos? (chars "fleet") df2.colNames = some i1 := by
    rw [hcols]; exact hc1
  have hc2a : findPos? (chars "idBike") df2.colNames = some i2 := by
    rw [hcols]; exact hc2
  have hc3a : findPos? (chars "station_lock") df2.colNames = some i3 := by
    rw [hcols]; exact hc3
  have hc4a : findPos? (chars "station_unlock") df2.colNames = some i4 := by
    rw [hcols]; exact hc4
  rw [clean_ok_char hc1a hc2a hc3a hc4a]
  congr 1
  have hall : ∀ r ∈ df2.rows, (fun q => !q.2.all cellIsNa) r = true := by
    intro r hr
    rw [hrows] at hr
    simp only [List.map_map, List.mem_map] at hr
    obtain ⟨r0, hr0, rfl⟩ := hr
    simp only [Function.comp_apply, allNa_rowMapAt]
    simpa using List.of_mem_filter hr0
  conv_rhs => rw [hdf]
  rw [DataFrame.mk.injEq]
  refine ⟨hcols, ?_⟩
  rw [List.filter_eq_self.mpr hall, hrows]
  simp only [List.map_map]
  congr 1
  funext r
  simp only [Function.comp_apply]
  exact quad_rowMap_idem h12 h13 h14 h23 h24 h34 r


/-! ## Example tables used by the witnesses -/

/-- A small trip table in the raw (post-`get_data`) state: float identifier
    columns, one all-null row. -/
def exFrame : DataFrame :=
  ⟨[chars "fleet", chars "idBike", chars "station_lock", chars "station_unlock",
    chars "trip_minutes", chars "address_unlock"],
   [(Cell.str (chars "d1"),
     [Cell.flt 1, Cell.flt 20, Cell.flt 3, Cell.flt 4, Cell.flt 30, Cell.str (chars "A")]),
    (Cell.str (chars "d2"),
     [Cell.na, Cell.na, Cell.na, Cell.na, Cell.na, Cell.na]),
    (Cell.str (chars "d3"),
     [Cell.flt 2, Cell.flt 21, Cell.flt 5, Cell.flt 6, Cell.int 45, Cell.str (chars "A")]),
    (Cell.str (chars "d4"),
     [Cell.flt 2, Cell.flt 22, Cell.flt 7, Cell.flt 8, Cell.flt 15, Cell.str (chars "B")])]⟩

/-- The cleaned state of `exFrame`. -/
def exFrameClean : DataFrame :=
  ⟨[chars "fleet", chars "idBike", chars "station_lock", chars "station_unlock",
    chars "trip_minutes", chars "address_unlock"],
   [(Cell.str (chars "d1"),
     [Cell.str (chars "1"), Cell.str (chars "20"), Cell.str (chars "3"),
      Cell.str (chars "4"), Cell.flt 30, Cell.str (chars "A")]),
    (Cell.str (chars "d3"),
     [Cell.str (chars "2"), Cell.str (chars "21"), Cell.str (chars "5"),
      Cell.str (chars "6"), Cell.int 45, Cell.str (chars "A")]),
    (Cell.str (chars "d4"),
     [Cell.str (chars "2"), Cell.str (chars "22"), Cell.str (chars "7"),
      Cell.str (chars "8"), Cell.flt 15, Cell.str (chars "B")])]⟩

/-- A trip table missing the `station_unlock` identifier column. -/
def exFrameMissing : DataFrame :=
  ⟨[chars "fleet", chars "idBike", chars "station_lock", chars "trip_minutes"],
   [(Cell.na, [Cell.flt 1, Cell.flt 2, Cell.flt 3, Cell.flt 4])]⟩

/-! ## C4, C9, C10 -/

/-- C4: `clean()` is idempotent — whenever cleaning a table succeeds and
    yields the table `df2`, invoking `clean` again on `df2` succeeds and is a
    no-op, returning `df2` unchanged. -/
theorem clean_idem_claim (df df2 : DataFrame) (h : clean df = .ok df2) :
    clean df2 = .ok df2 := clean_idempotent h

theorem clean_idem_claim_witness :
    clean exFrame = .ok exFrameClean ∧ clean exFrameClean = .ok exFrameClean :=
  ⟨by decide, clean_idem_claim exFrame exFrameClean (by decide)⟩

/-- C9: every access of the `data` accessor first applies `clean` to the held
    table as a side effect and returns exactly that table; the side effect
    happens on each access and, by idempotence of `clean`, a repeated access
    re-cleans yet returns the unchanged table and state. -/
theorem data_accessor_spec (b : BiciMad) (d : DataFrame) (b2 : BiciMad)
    (h : BiciMad.data b = .ok (d, b2)) :
    b2._data = d ∧ clean b._data = .ok d ∧ clean b2._data = .ok b2._data ∧
      BiciMad.data b2 = .ok (d, b2) := by
  rw [BiciMad.data] at h
  rcases hc : clean b._data with e | d0
  · rw [hc, bindErr] at h
    exact absurd h (by simp)
  · rw [hc, bindOk] at h
    have h' : (Except.ok (d0, { b with _data := d0 }) :
        Except PyErr (DataFrame × BiciMad)) = Except.ok (d, b2) := h
    rw [Except.ok.injEq, Prod.mk.injEq] at h'
    obtain ⟨hd0, hb2⟩ := h'
    have hdata : b2._data = d := by rw [← hb2, ← hd0]
    have hidem : clean d = .ok d := hd0 ▸ clean_idempotent hc
    have hlast : BiciMad.data b2 = .ok (d, b2) := by
      rw [BiciMad.data, hdata, hidem, bindOk]
      show Except.ok (d, { b2 with _data := d }) = Except.ok (d, b2)
      have hb2' : { b2 with _data := d } = b2 := by
        rw [← hb2, ← hd0]
      rw [hb2']
    exact ⟨hdata, by rw [hd0], by rw [hdata]; exact hidem, hlast⟩

theorem data_accessor_spec_witness :
    BiciMad.data ⟨2, 23, exFrame⟩ =
      .ok (exFrameClean, ⟨2, 23, exFrameClean⟩) ∧
    ((⟨2, 23, exFrameClean⟩ : BiciMad)._data = exFrameClean ∧
      clean (⟨2, 23, exFrame⟩ : BiciMad)._data = .ok exFrameClean ∧
      clean (⟨2, 23, exFrameClean⟩ : BiciMad)._data =
        .ok (⟨2, 23, exFrameClean⟩ : BiciMad)._data ∧
      BiciMad.data ⟨2, 23, exFrameClean⟩ =
        .ok (exFrameClean, ⟨2, 23, exFrameClean⟩)) :=
  ⟨by decide, data_accessor_spec ⟨2, 23, exFrame⟩ exFrameClean
    ⟨2, 23, exFrameClean⟩ (by decide)⟩

/-- C10: implicit precondition of `clean` (and of the `data` accessor and
    `resume`, which invoke it): the four identifier columns must all be
    present; if any is absent, `clean` fails with a `KeyError` naming the
    first missing one — it neither leaves the table unchanged and succeeds,
    nor skips the missing column. -/
theorem clean_missing_idcol (df : DataFrame)
    (h : ∃ c ∈ idCols, c ∉ df.colNames) :
    ∃ c ∈ idCols, c ∉ df.colNames ∧
      clean df = .error (.keyError c) ∧
      (∀ m y : Int, BiciMad.data ⟨m, y, df⟩ = .error (.keyError c)) ∧
      (∀ m y : Int, resume ⟨m, y, df⟩ = .error (.keyError c)) := by
  have base : ∀ c : Str, clean df = .error (.keyError c) →
      (∀ m y : Int, BiciMad.data ⟨m, y, df⟩ = .error (.keyError c)) ∧
      (∀ m y : Int, resume ⟨m, y, df⟩ = .error (.keyError c)) := by
    intro c hcl
    have hdata : ∀ m y : Int,
        BiciMad.data ⟨m, y, df⟩ = .error (.keyError c) := by
      intro m y
      rw [BiciMad.data]
      show clean df >>= _ = _
      rw [hcl, bindErr]
    refine ⟨hdata, ?_⟩
    intro m y
    rw [resume]
    show BiciMad.data _ >>= _ = _
    rw [hdata m y, bindErr]
  have step : ∀ (d : DataFrame) (c : Str), c ∈ d.colNames →
      ∃ d2, setColMap d c = .ok d2 ∧ d2.colNames = d.colNames := by
    intro d c hm
    obtain ⟨i, hi⟩ := findPos?_isSome_of_mem hm
    exact ⟨_, setColMap_some hi, rfl⟩
  have stepN : ∀ (d : DataFrame) (c : Str), c ∉ d.colNames →
      setColMap d c = .error (.keyError c) :=
    fun d c hm => setColMap_none (findPos?_of_not_mem hm)
  by_cases h1 : chars "fleet" ∈ df.colNames
  · by_cases h2 : chars "idBike" ∈ df.colNames
    · by_cases h3 : chars "station_lock" ∈ df.colNames
      · by_cases h4 : chars "station_unlock" ∈ df.colNames
        · exfalso
          obtain ⟨c, hcm, hcn⟩ := h
          simp only [idCols, List.mem_cons, List.not_mem_nil, or_false] at hcm
          rcases hcm with rfl | rfl | rfl | rfl
          · exact hcn h1
          · exact hcn h2
          · exact hcn h3
          · exact hcn h4
        · obtain ⟨d1, e1, hn1⟩ := step (dropnaAll df) _
            (show chars "fleet" ∈ (dropnaAll df).colNames from h1)
          obtain ⟨d2, e2, hn2⟩ := step d1 _
            (show chars "idBike" ∈ d1.colNames by rw [hn1]; exact h2)
          obtain ⟨d3, e3, hn3⟩ := step d2 _
            (show chars "station_lock" ∈ d2.colNames by
              rw [hn2, hn1]; exact h3)
          have e4 : setColMap d3 (chars "station_unlock") =
              .error (.keyError (chars "station_unlock")) := by
            refine stepN d3 _ ?_
            rw [hn3, hn2, hn1]
            exact h4
          have hcl : clean df = .error (.keyError (chars "station_unlock")) := by
            rw [clean_eq, e1, bindOk, e2, bindOk, e3, bindOk, e4]
          exact ⟨chars "station_unlock", by simp [idCols], h4, hcl, base _ hcl⟩
      · obtain ⟨d1, e1, hn1⟩ := step (dropnaAll df) _
          (show chars "fleet" ∈ (dropnaAll df).colNames from h1)
        obtain ⟨d2, e2, hn2⟩ := step d1 _
          (show chars "idBike" ∈ d1.colNames by rw [hn1]; exact h2)
        have e3 : setColMap d2 (chars "station_lock") =
            .error (.keyError (chars "station_lock")) := by
          refine stepN d2 _ ?_
          rw [hn2, hn1]
          exact h3
        have hcl : clean df = .error (.keyError (chars "station_lock")) := by
          rw [clean_eq, e1, bindOk, e2, bindOk, e3, bindErr]
        exact ⟨chars "station_lock", by simp [idCols], h3, hcl, base _ hcl⟩
    · obtain ⟨d1, e1, hn1⟩ := step (dropnaAll df) _
        (show chars "fleet" ∈ (dropnaAll df).colNames from h1)
      have e2 : setColMap d1 (chars "idBike") =
          .error (.keyError (chars "idBike")) := by
        refine stepN d1 _ ?_
        rw [hn1]
        exact h2
      have hcl : clean df = .error (.keyError (chars "idBike")) := by
        rw [clean_eq, e1, bindOk, e2, bindErr]
      exact ⟨chars "idBike", by simp [idCols], h2, hcl, base _ hcl⟩
  · have e1 : setColMap (dropnaAll df) (chars "fleet") =
        .error (.keyError (chars "fleet")) :=
      stepN (dropnaAll df) _ (show chars "fleet" ∉ (dropnaAll df).colNames from h1)
    have hcl : clean df = .error (.keyError (chars "fleet")) := by
      rw [clean_eq, e1, bindErr]
    exact ⟨chars "fleet", by simp [idCols], h1, hcl, base _ hcl⟩

theorem clean_missing_idcol_witness :
    (∃ c ∈ idCols, c ∉ exFrameMissing.colNames) ∧
    ∃ c ∈ idCols, c ∉ exFrameMissing.colNames ∧
      clean exFrameMissing = .error (.keyError c) ∧
      (∀ m y : Int, BiciMad.data ⟨m, y, exFrameMissing⟩ =
        .error (.keyError c)) ∧
      (∀ m y : Int, resume ⟨m, y, exFrameMissing⟩ = .error (.keyError c)) :=
  ⟨⟨chars "station_unlock", by decide, by decide⟩,
    clean_missing_idcol exFrameMissing ⟨chars "station_unlock", by decide, by decide⟩⟩


/-! ## C7, C8 -/

/-- C7: every HTTP response with a status code other than 200 raises
    `ConnectionError` — at catalog construction (`select_valid_urls`, hence
    `UrlEMT.__init__`) and at the CSV archive download inside `get_csv` (once
    the link is resolved) — and the error propagates to the caller uncaught. -/
theorem non200_connection_error (r : HttpResponse) (h : r.status_code ≠ 200) :
    select_valid_urls r = .error (.connectionError connErrMsg) ∧
    urlEMT_init r = .error (.connectionError connErrMsg) ∧
    ∀ (e : UrlEMT) (month year : PyVal) (url : Str),
      get_url e month year = .ok url →
      get_csv e r month year = .error (.connectionError connErrMsg) := by
  have h1 : select_valid_urls r = .error (.connectionError connErrMsg) := by
    rw [select_valid_urls, if_pos h]
  refine ⟨h1, by rw [urlEMT_init, h1]; rfl, ?_⟩
  intro e month year url hu
  rw [get_csv]
  show get_url e month year >>= _ = _
  rw [hu, bindOk]
  show (if r.status_code ≠ 200 then _ else _) = _
  rw [if_pos h]

def resp404 : HttpResponse := ⟨404, chars "Not Found", []⟩

theorem non200_connection_error_witness :
    resp404.status_code ≠ 200 ∧
    (select_valid_urls resp404 = .error (.connectionError connErrMsg) ∧
    urlEMT_init resp404 = .error (.connectionError connErrMsg) ∧
    ∀ (e : UrlEMT) (month year : PyVal) (url : Str),
      get_url e month year = .ok url →
      get_csv e resp404 month year = .error (.connectionError connErrMsg)) :=
  ⟨by decide, non200_connection_error resp404 (by decide)⟩

/-- C8: round-trip through the archive — if the resolved link for
    (month, year) has trips-stem `st` (its trailing `-…` suffix stripped at
    the last dash) and the served ZIP maps the entry `st ++ ".csv"` to the
    text `c`, then `get_csv` succeeds and the returned stream carries exactly
    `c`. -/
theorem get_csv_roundtrip (e : UrlEMT) (r : HttpResponse) (month year : PyVal)
    (url st c : Str)
    (hu : get_url e month year = .ok url)
    (h200 : r.status_code = 200)
    (hst : stemOf url = some st)
    (hz : lookupZip r.content (st ++ chars ".csv") = some c) :
    get_csv e r month year = .ok c := by
  rw [get_csv]
  show get_url e month year >>= _ = _
  rw [hu, bindOk]
  show (if r.status_code ≠ 200 then _ else _) = _
  rw [if_neg (by rw [h200]; exact fun hne => hne rfl)]
  rw [hst]
  show (match lookupZip r.content (st ++ chars ".csv") with
    | none => (Except.error (PyErr.keyError (st ++ chars ".csv")) :
        Except PyErr Str)
    | some contents => Except.ok contents) = Except.ok c
  rw [hz]

def respZip : HttpResponse :=
  ⟨200, [], [(chars "trips_23_02_February.csv", chars "fecha;idBike\n23;7")]⟩

def zipLinks : UrlEMT := ⟨[chars "/g/trips_23_02_February-csv.aspx"]⟩

theorem get_csv_roundtrip_witness :
    get_url zipLinks (.i 2) (.i 23) =
      .ok (chars "/g/trips_23_02_February-csv.aspx") ∧
    respZip.status_code = 200 ∧
    stemOf (chars "/g/trips_23_02_February-csv.aspx") =
      some (chars "trips_23_02_February") ∧
    lookupZip respZip.content
      (chars "trips_23_02_February" ++ chars ".csv") =
      some (chars "fecha;idBike\n23;7") ∧
    get_csv zipLinks respZip (.i 2) (.i 23) =
      .ok (chars "fecha;idBike\n23;7") :=
  ⟨by decide, by decide, by decide, by decide,
    get_csv_roundtrip zipLinks respZip (.i 2) (.i 23)
      (chars "/g/trips_23_02_February-csv.aspx")
      (chars "trips_23_02_February") (chars "fecha;idBike\n23;7")
      (by decide) (by decide) (by decide) (by decide)⟩


/-! ## C1: the summary record -/

theorem mem_insertDesc {p x : Cell × Nat} {l : List (Cell × Nat)} :
    x ∈ insertDesc p l ↔ x = p ∨ x ∈ l := by
  induction l with
  | nil => simp [insertDesc]
  | cons q t ih =>
    rw [insertDesc]
    by_cases hq : q.2 < p.2
    · rw [if_pos hq]
      simp [List.mem_cons]
    · rw [if_neg hq]
      simp only [List.mem_cons, ih]
      tauto

theorem mem_sortDesc {x : Cell × Nat} {l : List (Cell × Nat)} :
    x ∈ sortDesc l ↔ x ∈ l := by
  induction l with
  | nil => simp [sortDesc]
  | cons p t ih =>
    show x ∈ insertDesc p (sortDesc t) ↔ _
    rw [mem_insertDesc]
    simp [ih]

theorem sortDesc_head_max {l : List (Cell × Nat)} {r : Cell × Nat}
    {t : List (Cell × Nat)} (h : sortDesc l = r :: t) :
    ∀ x ∈ l, x.2 ≤ r.2 := by
  induction l generalizing r t with
  | nil => simp [sortDesc] at h
  | cons p l2 ih =>
    have h' : insertDesc p (sortDesc l2) = r :: t := h
    rcases hs : sortDesc l2 with _ | ⟨q, t2⟩
    · rw [hs] at h'
      rw [insertDesc, List.cons.injEq] at h'
      obtain ⟨hrp, -⟩ := h'
      intro x hx
      rcases List.mem_cons.mp hx with rfl | hx2
      · rw [hrp]
      · have : x ∈ sortDesc l2 := mem_sortDesc.mpr hx2
        rw [hs] at this
        exact absurd this (by simp)
    · rw [hs] at h'
      rw [insertDesc] at h'
      by_cases hq : q.2 < p.2
      · rw [if_pos hq, List.cons.injEq] at h'
        obtain ⟨hrp, -⟩ := h'
        intro x hx
        rcases List.mem_cons.mp hx with rfl | hx2
        · rw [hrp]
        · have := ih hs x hx2
          rw [← hrp]
          exact Nat.le_trans this (Nat.le_of_lt hq)
      · rw [if_neg hq, List.cons.injEq] at h'
        obtain ⟨hrq, -⟩ := h'
        intro x hx
        rcases List.mem_cons.mp hx with rfl | hx2
        · rw [← hrq]
          exact Nat.le_of_not_lt hq
        · rw [← hrq]
          exact ih hs x hx2

/-- The head of `value_counts` carries a most-frequent non-null value with
    its exact occurrence count. -/
theorem value_counts_head {cells : List Cell} {v : Cell} {n : Nat}
    {rest : List (Cell × Nat)} (h : value_counts cells = (v, n) :: rest) :
    n = (cells.filter (fun c => !cellIsNa c)).count v ∧
    ∀ w : Cell, (cells.filter (fun c => !cellIsNa c)).count w ≤ n := by
  have hmem : (v, n) ∈ sortDesc ((cells.filter (fun c => !cellIsNa c)).dedup.map
      (fun k => (k, (cells.filter (fun c => !cellIsNa c)).count k))) := by
    rw [show sortDesc ((cells.filter (fun c => !cellIsNa c)).dedup.map
      (fun k => (k, (cells.filter (fun c => !cellIsNa c)).count k))) =
        value_counts cells from rfl, h]
    exact List.mem_cons_self _ _
  have hmem2 := mem_sortDesc.mp hmem
  rw [List.mem_map] at hmem2
  obtain ⟨k, hk, hkv⟩ := hmem2
  rw [Prod.mk.injEq] at hkv
  obtain ⟨hkv1, hkv2⟩ := hkv
  constructor
  · rw [← hkv2, hkv1]
  · intro w
    by_cases hw : w ∈ cells.filter (fun c => !cellIsNa c)
    · have hwd : w ∈ (cells.filter (fun c => !cellIsNa c)).dedup :=
        List.mem_dedup.mpr hw
      have hwm : (w, (cells.filter (fun c => !cellIsNa c)).count w) ∈
          (cells.filter (fun c => !cellIsNa c)).dedup.map
            (fun k => (k, (cells.filter (fun c => !cellIsNa c)).count k)) :=
        List.mem_map.mpr ⟨w, hwd, rfl⟩
      have := sortDesc_head_max h _ hwm
      exact this
    · rw [List.count_eq_zero.mpr hw]
      exact Nat.zero_le n

/-- C1: on a cleaned trip table (with the needed columns, a numeric
    `trip_minutes` column and at least one non-null `address_unlock` value),
    `resume` returns exactly the six fields in order: the four-digit year
    string `'20' + str(year)`, the month, `total_uses` equal to row count ×
    column count of the table (not the row count), `total_time` equal to the
    `trip_minutes` sum divided by 60, a most-frequent `address_unlock` value,
    and that value's occurrence count. -/
theorem resume_spec (b : BiciMad) (d : DataFrame)
    (hc : clean b._data = .ok d)
    (tm au : List Cell)
    (htm : getCol d (chars "trip_minutes") = .ok tm)
    (hau : getCol d (chars "address_unlock") = .ok au)
    (s : ℚ) (hs : colSumNum tm = some s)
    (v : Cell) (n : Nat) (rest : List (Cell × Nat))
    (hvc : value_counts au = (v, n) :: rest) :
    resume b = .ok
      [(chars "year", SField.s (chars "20" ++ chars (toString b._year))),
       (chars "month", SField.i b._month),
       (chars "total_uses", SField.n (d.rows.length * d.colNames.length)),
       (chars "total_time", SField.q (s / 60)),
       (chars "most_popular_station", SField.c v),
       (chars "uses_from_most_popular", SField.n n)] ∧
    n = (au.filter (fun c => !cellIsNa c)).count v ∧
    (∀ w : Cell, (au.filter (fun c => !cellIsNa c)).count w ≤ n) := by
  obtain ⟨hn, hmax⟩ := value_counts_head hvc
  have hb : BiciMad.data b = .ok (d, { b with _data := d }) := by
    rw [BiciMad.data, hc, bindOk]
    rfl
  refine ⟨?_, hn, hmax⟩
  rw [resume]
  show BiciMad.data b >>= _ = _
  rw [hb, bindOk]
  show getCol d (chars "trip_minutes") >>= _ = _
  rw [htm, bindOk]
  show getCol d (chars "address_unlock") >>= _ = _
  rw [hau, bindOk]
  simp only [hs, hvc, pure_bind]
  rfl

def exB : BiciMad := ⟨2, 23, exFrame⟩

theorem resume_spec_witness :
    clean exB._data = .ok exFrameClean ∧
    getCol exFrameClean (chars "trip_minutes") =
      .ok [Cell.flt 30, Cell.int 45, Cell.flt 15] ∧
    getCol exFrameClean (chars "address_unlock") =
      .ok [Cell.str (chars "A"), Cell.str (chars "A"), Cell.str (chars "B")] ∧
    colSumNum [Cell.flt 30, Cell.int 45, Cell.flt 15] = some 90 ∧
    value_counts [Cell.str (chars "A"), Cell.str (chars "A"),
      Cell.str (chars "B")] =
      (Cell.str (chars "A"), 2) :: [(Cell.str (chars "B"), 1)] ∧
    (resume exB = .ok
      [(chars "year", SField.s (chars "20" ++ chars (toString exB._year))),
       (chars "month", SField.i exB._month),
       (chars "total_uses",
        SField.n (exFrameClean.rows.length * exFrameClean.colNames.length)),
       (chars "total_time", SField.q ((90 : ℚ) / 60)),
       (chars "most_popular_station", SField.c (Cell.str (chars "A"))),
       (chars "uses_from_most_popular", SField.n 2)] ∧
    2 = ([Cell.str (chars "A"), Cell.str (chars "A"),
      Cell.str (chars "B")].filter (fun c => !cellIsNa c)).count
        (Cell.str (chars "A")) ∧
    (∀ w : Cell, ([Cell.str (chars "A"), Cell.str (chars "A"),
      Cell.str (chars "B")].filter (fun c => !cellIsNa c)).count w ≤ 2)) :=
  ⟨by decide, by decide, by decide, by norm_num [colSumNum], by decide,
    resume_spec exB exFrameClean (by decide)
      [Cell.flt 30, Cell.int 45, Cell.flt 15]
      [Cell.str (chars "A"), Cell.str (chars "A"), Cell.str (chars "B")]
      (by decide) (by decide) 90 (by norm_num [colSumNum])
      (Cell.str (chars "A")) 2 [(Cell.str (chars "B"), 1)] (by decide)⟩


/-! ## C5: `get_data` -/

theorem contains_iff {l : List Str} {c : Str} : l.contains c = true ↔ c ∈ l :=
  List.elem_iff

theorem delete_foldl_eq_aux (names acc : List Str) :
    names.foldl (fun acc c => if columns.contains c then acc else acc ++ [c]) acc =
      acc ++ names.filter (fun c => !columns.contains c) := by
  induction names generalizing acc with
  | nil => simp
  | cons n t ih =>
    rw [List.foldl_cons]
    by_cases hn : columns.contains n = true
    · rw [if_pos hn, ih, List.filter_cons, if_neg (by rw [hn]; simp)]
    · rw [Bool.not_eq_true] at hn
      rw [if_neg (by rw [hn]; simp), ih, List.filter_cons,
        if_pos (by rw [hn]; rfl), List.append_assoc]
      rfl

/-- The `delete` list built by the loop in `get_data` is exactly the list of
    input columns outside the allow-list. -/
theorem delete_foldl_eq (names : List Str) :
    names.foldl (fun acc c => if columns.contains c then acc else acc ++ [c]) [] =
      names.filter (fun c => !columns.contains c) :=
  delete_foldl_eq_aux names []

/-- C5: whenever the semicolon/`fecha`-indexed parse succeeds, `get_data`
    succeeds and (i) keeps exactly the parsed columns that are in the fixed
    15-column allow-list, in order, (ii) keeps every row, and (iii) replaces
    each index value by its parsed datetime, unparsable values becoming null
    instead of raising. -/
theorem get_data_spec (inferCell : Str → Cell) (parseDate : Cell → Option Nat)
    (txt : Str) (df0 : DataFrame)
    (hread : read_csv_semicolon inferCell txt = .ok df0) :
    ∃ df, get_data inferCell parseDate txt = .ok df ∧
      df.colNames = df0.colNames.filter (fun c => columns.contains c) ∧
      (∀ c, c ∈ df.colNames ↔ c ∈ df0.colNames ∧ c ∈ columns) ∧
      df.rows.length = df0.rows.length ∧
      df.rows.map Prod.fst = df0.rows.map (fun r =>
        match parseDate r.1 with
        | some dt => Cell.date dt
        | none => Cell.na) := by
  have hdel := delete_foldl_eq df0.colNames
  have hcols : (dropCols df0 (df0.colNames.foldl
      (fun acc c => if columns.contains c then acc else acc ++ [c]) [])).colNames =
      df0.colNames.filter (fun c => columns.contains c) := by
    show df0.colNames.filter _ = _
    rw [hdel]
    apply List.filter_congr
    intro c hc
    by_cases hcc : c ∈ columns
    · have h1 : columns.contains c = true := contains_iff.mpr hcc
      have h2 : (df0.colNames.filter (fun x => !columns.contains x)).contains c
          = false := by
        rw [← Bool.not_eq_true, contains_iff]
        intro hm
        have h3 := List.of_mem_filter hm
        rw [h1] at h3
        exact absurd h3 (by simp)
      rw [h1, h2]
      rfl
    · have h1 : columns.contains c = false := by
        rw [← Bool.not_eq_true, contains_iff]
        exact hcc
      have h2 : (df0.colNames.filter (fun x => !columns.contains x)).contains c
          = true := by
        rw [contains_iff]
        exact List.mem_filter.mpr ⟨hc, by rw [h1]; rfl⟩
      rw [h1, h2]
      rfl
  refine ⟨⟨(dropCols df0 (df0.colNames.foldl
      (fun acc c => if columns.contains c then acc else acc ++ [c]) [])).colNames,
    (dropCols df0 (df0.colNames.foldl
      (fun acc c => if columns.contains c then acc else acc ++ [c]) [])).rows.map
        (fun r => (coerceDate parseDate r.1, r.2))⟩, ?_, hcols, ?_, ?_, ?_⟩
  · rw [get_data]
    show read_csv_semicolon inferCell txt >>= _ = _
    rw [hread, bindOk]
  · intro c
    constructor
    · intro hm
      have hm2 : c ∈ (dropCols df0 (df0.colNames.foldl
          (fun acc c => if columns.contains c then acc else acc ++ [c])
          [])).colNames := hm
      rw [hcols] at hm2
      have hm3 := List.mem_filter.mp hm2
      exact ⟨hm3.1, contains_iff.mp hm3.2⟩
    · intro hm
      obtain ⟨h1, h2⟩ := hm
      have hm2 : c ∈ df0.colNames.filter (fun x => columns.contains x) :=
        List.mem_filter.mpr ⟨h1, contains_iff.mpr h2⟩
      rw [← hcols] at hm2
      exact hm2
  · show ((df0.rows.map _).map _).length = _
    rw [List.length_map, List.length_map]
  · show ((df0.rows.map _).map _).map Prod.fst = _
    rw [List.map_map, List.map_map]
    congr 1


def exInfer : Str → Cell := fun s => if s.isEmpty then Cell.na else Cell.str s

def exParseDate : Cell → Option Nat := fun c =>
  match c with
  | Cell.str v => if v = chars "2023-02-01" then some 20230201 else none
  | _ => none

def exCsv : Str := chars "fecha;idBike;junk\n2023-02-01;7;x\nbad;8;y\n"

def exRead : DataFrame :=
  ⟨[chars "idBike", chars "junk"],
   [(Cell.str (chars "2023-02-01"), [Cell.str (chars "7"), Cell.str (chars "x")]),
    (Cell.str (chars "bad"), [Cell.str (chars "8"), Cell.str (chars "y")])]⟩

theorem get_data_spec_witness :
    read_csv_semicolon exInfer exCsv = .ok exRead ∧
    ∃ df, get_data exInfer exParseDate exCsv = .ok df ∧
      df.colNames = exRead.colNames.filter (fun c => columns.contains c) ∧
      (∀ c, c ∈ df.colNames ↔ c ∈ exRead.colNames ∧ c ∈ columns) ∧
      df.rows.length = exRead.rows.length ∧
      df.rows.map Prod.fst = exRead.rows.map (fun r =>
        match exParseDate r.1 with
        | some dt => Cell.date dt
        | none => Cell.na) :=
  ⟨by decide, get_data_spec exInfer exParseDate exCsv exRead (by decide)⟩


/-! ## C6: `select_valid_urls` against the set of trip hrefs -/

theorem takeWhile_append_all {p : Char → Bool} {v w : Str}
    (h : ∀ c ∈ v, p c = true) :
    (v ++ w).takeWhile p = v ++ w.takeWhile p := by
  induction v with
  | nil => rfl
  | cons c t ih =>
    rw [List.cons_append, List.takeWhile_cons, if_pos (h c (by simp)),
      ih (fun x hx => h x (by simp [hx])), List.cons_append]

theorem occursAt_append_left {pat v w : Str} {i : Nat}
    (h : occursAt pat v i = true) : occursAt pat (v ++ w) i = true := by
  rcases pat with _ | ⟨p, ps⟩
  · simp [occursAt, List.isPrefixOf]
  · have hb := occursAt_le_length (by simp) h
    have hp : (p :: ps) <+: v.drop i := List.isPrefixOf_iff_prefix.mp h
    have hdrop : (v ++ w).drop i = v.drop i ++ w := by
      rw [List.drop_append_eq_append_drop,
        show i - v.length = 0 from by omega, List.drop_zero]
    rw [occursAt, hdrop]
    exact List.isPrefixOf_iff_prefix.mpr (hp.trans (List.prefix_append _ w))

/-- An occurrence of the suffix `pat` of `v` at position `|v| - |pat|`,
    inside any right extension of `v`. -/
theorem occursAt_suffix_append {pat v w : Str} (h : pat.isSuffixOf v = true) :
    occursAt pat (v ++ w) (v.length - pat.length) = true := by
  obtain ⟨u, hu⟩ := List.isSuffixOf_iff_suffix.mp h
  have hlen : u.length = v.length - pat.length := by
    have : u.length + pat.length = v.length := by
      rw [← List.length_append, hu]
    omega
  rw [occursAt, show v.length - pat.length = u.length from hlen.symm, ← hu,
    List.append_assoc, List.drop_left]
  exact List.isPrefixOf_iff_prefix.mpr (List.prefix_append pat w)

/-- If no character of `w` belongs to `pat`, an occurrence of `pat` in
    `v ++ w` lies entirely inside `v`. -/
theorem occursAt_append_bound {pat v w : Str} (hne : pat ≠ [])
    (hdis : ∀ c ∈ w, c ∉ pat) {j : Nat}
    (h : occursAt pat (v ++ w) j = true) : j + pat.length ≤ v.length := by
  by_contra hlt
  push_neg at hlt
  have hlen := occursAt_le_length hne h
  rw [List.length_append] at hlen
  by_cases hj : j ≤ v.length
  · have hk : v.length - j < pat.length := by omega
    have hel := occursAt_getElem? h (k := v.length - j) hk
    rw [show j + (v.length - j) = v.length from by omega] at hel
    have hw : w ≠ [] := by
      intro hwnil
      subst hwnil
      simp at hlen
      omega
    have hv : (v ++ w)[v.length]? = w[0]? := by
      rw [List.getElem?_append_right (Nat.le_refl _), Nat.sub_self]
    rcases hw0 : w[0]? with _ | c0
    · rw [List.getElem?_eq_none_iff] at hw0
      have : 0 < w.length := List.length_pos.mpr hw
      omega
    · rw [hv, hw0] at hel
      have hc0w : c0 ∈ w := List.getElem?_mem hw0
      have hc0p : c0 ∈ pat := by
        have := (List.getElem?_eq_some.mp hel.symm)
        obtain ⟨hb, he⟩ := this
        exact he ▸ List.getElem_mem hb
      exact hdis c0 hc0w hc0p
  · push_neg at hj
    have hel := occursAt_getElem? h (k := 0) (List.length_pos.mpr hne)
    rw [Nat.add_zero] at hel
    have hv : (v ++ w)[j]? = w[j - v.length]? :=
      List.getElem?_append_right (Nat.le_of_lt hj)
    rcases hw0 : w[j - v.length]? with _ | c0
    · rw [List.getElem?_eq_none_iff] at hw0
      have hpp : 0 < pat.length := List.length_pos.mpr hne
      omega
    · rw [hv, hw0] at hel
      have hc0w : c0 ∈ w := List.getElem?_mem hw0
      have hc0p : c0 ∈ pat := by
        obtain ⟨hb, he⟩ := List.getElem?_eq_some.mp hel.symm
        exact he ▸ List.getElem_mem hb
      exact hdis c0 hc0w hc0p


theorem firstIdx?_le_of_occursAt {pat s : Str} (hne : pat ≠ []) {i : Nat}
    (h : occursAt pat s i = true) :
    ∃ t0, firstIdx? pat s = some t0 ∧ t0 ≤ i ∧ occursAt pat s t0 = true := by
  rcases hf : firstIdx? pat s with _ | t0
  · have := firstIdx?_eq_none hne hf i
    rw [h] at this
    exact absurd this (by simp)
  · obtain ⟨h1, h2⟩ := firstIdx?_eq_some hne hf
    exact ⟨t0, rfl, h2 i h, h1⟩

theorem lastIdx?_eq_of_max {pat s : Str} (hne : pat ≠ []) {a : Nat}
    (hocc : occursAt pat s a = true)
    (hmax : ∀ j, occursAt pat s j = true → j ≤ a) :
    lastIdx? pat s = some a := by
  rcases hf : lastIdx? pat s with _ | a2
  · have := lastIdx?_eq_none hne hf a
    rw [hocc] at this
    exact absurd this (by simp)
  · obtain ⟨h1, h2⟩ := lastIdx?_eq_some hne hf
    have ha1 : a2 ≤ a := hmax a2 h1
    have ha2 : a ≤ a2 := h2 a hocc
    rw [show a2 = a from by omega]

theorem exists_occursAt_of_occursIn {pat s : Str} (hne : pat ≠ [])
    (h : occursIn pat s = true) : ∃ i, occursAt pat s i = true := by
  induction s with
  | nil =>
    rw [occursIn] at h
    exact absurd (List.isEmpty_iff.mp h) hne
  | cons c t ih =>
    rw [occursIn, Bool.or_eq_true] at h
    rcases h with h | h
    · exact ⟨0, by rw [occursAt_zero]; exact h⟩
    · obtain ⟨i, hi⟩ := ih h
      exact ⟨i + 1, by rw [occursAt_cons_succ]; exact hi⟩

theorem occursAt_of_take {pat v : Str} {k i : Nat} (hne : pat ≠ [])
    (h : occursAt pat (v.take k) i = true) :
    occursAt pat v i = true ∧ i + pat.length ≤ k := by
  have hb := occursAt_le_length hne h
  rw [List.length_take] at hb
  refine ⟨?_, le_trans hb (min_le_left _ _)⟩
  have h2 : occursAt pat (v.take k ++ v.drop k) i = true := occursAt_append_left h
  rw [List.take_append_drop] at h2
  exact h2

/-- The regex group match just after `href="` on the canonical anchor line:
    it returns exactly the href value `v`, provided `v` contains `trips`
    early enough for the trailing `aspx`, ends with `aspx`, and contains no
    quote or newline, and nothing after the closing quote in the line
    contains `aspx`. -/
theorem matchGroup_anchor (v rest : Str)
    (htrips : occursIn tripsTok (v.take (v.length - 4)) = true)
    (haspx : aspxTok.isSuffixOf v = true)
    (hclean : ∀ c ∈ v, c ≠ '"' ∧ c ≠ '\n') :
    matchGroup (v ++ '"' :: '>' :: '\n' :: rest) = some v := by
  have h4 : 4 ≤ v.length := by
    have := (List.isSuffixOf_iff_suffix.mp haspx).length_le
    simpa using this
  obtain ⟨i0, hocc0⟩ := exists_occursAt_of_occursIn (by decide) htrips
  obtain ⟨hocc, hik⟩ := occursAt_of_take (by decide) hocc0
  have hi9 : i0 + 9 ≤ v.length := by
    have h5 : tripsTok.length = 5 := rfl
    rw [h5] at hik
    omega
  have hocc2 : occursAt tripsTok v i0 = true := hocc
  clear hocc hocc0 hik htrips
  set i := i0 with hi
  have hocc := hocc2
  have hline : (v ++ '"' :: '>' :: '\n' :: rest).takeWhile (fun c => c ≠ '\n') =
      v ++ ['"', '>'] := by
    rw [takeWhile_append_all (fun c hc => decide_eq_true (hclean c hc).2)]
    rfl
  have hoccA : occursAt tripsTok (v ++ ['"', '>']) i = true :=
    occursAt_append_left hocc
  obtain ⟨t0, hfi, ht0i, ht0occ⟩ := firstIdx?_le_of_occursAt (by decide) hoccA
  have hoccS : occursAt aspxTok (v ++ ['"', '>']) (v.length - 4) = true := by
    have := occursAt_suffix_append (w := ['"', '>']) haspx
    simpa using this
  have hbound : ∀ j, occursAt aspxTok (v ++ ['"', '>']) j = true →
      j ≤ v.length - 4 := by
    intro j hj
    have hb := occursAt_append_bound (by decide) (by decide) hj
    have hlen4 : aspxTok.length = 4 := rfl
    rw [hlen4] at hb
    omega
  have hlast : lastIdx? aspxTok (v ++ ['"', '>']) = some (v.length - 4) :=
    lastIdx?_eq_of_max (by decide) hoccS hbound
  simp only [matchGroup, hline, hfi, hlast]
  rw [if_pos (by omega)]
  rw [show v.length - 4 + 4 = v.length from by omega]
  rw [show (v ++ ['"', '>']).take v.length = v from List.take_left v _]

theorem scanAux_nil (n : Nat) : scanAux n [] = [] := by
  cases n <;> rfl

theorem scanAux_cons (n : Nat) (c : Char) (t : Str) :
    scanAux (n + 1) (c :: t) =
      if hrefTok.isPrefixOf (c :: t) then
        match matchGroup (t.drop 5) with
        | some g => g :: scanAux n (t.drop (5 + g.length))
        | none => scanAux n t
      else scanAux n t := rfl

theorem scanAux_fuel : ∀ (n m : Nat) (cs : Str), cs.length ≤ n →
    cs.length ≤ m → scanAux n cs = scanAux m cs := by
  intro n
  induction n with
  | zero =>
    intro m cs hn hm
    have hcs : cs = [] := List.length_eq_zero.mp (Nat.le_zero.mp hn)
    subst hcs
    rw [scanAux_nil, scanAux_nil]
  | succ n ih =>
    intro m cs hn hm
    cases cs with
    | nil => rw [scanAux_nil, scanAux_nil]
    | cons c t =>
      cases m with
      | zero =>
        rw [List.length_cons] at hm
        exact absurd hm (by omega)
      | succ m2 =>
        rw [scanAux_cons, scanAux_cons]
        rw [List.length_cons] at hn hm
        by_cases hp : hrefTok.isPrefixOf (c :: t) = true
        · rw [if_pos hp, if_pos hp]
          rcases hg : matchGroup (t.drop 5) with _ | g
          · exact ih m2 t (by omega) (by omega)
          · show g :: scanAux n (t.drop (5 + g.length)) =
              g :: scanAux m2 (t.drop (5 + g.length))
            rw [ih m2 (t.drop (5 + g.length))
              (by rw [List.length_drop]; omega)
              (by rw [List.length_drop]; omega)]
        · rw [if_neg hp, if_neg hp]
          exact ih m2 t (by omega) (by omega)

/-- `finditer` at its canonical fuel. -/
def scanL (cs : Str) : List Str := scanAux cs.length cs

theorem scanL_cons_no {c : Char} {t : Str}
    (hp : hrefTok.isPrefixOf (c :: t) = false) : scanL (c :: t) = scanL t := by
  show scanAux (t.length + 1) (c :: t) = _
  rw [scanAux_cons, if_neg (by rw [hp]; simp)]
  rfl

theorem scanL_cons_match {c : Char} {t : Str} {g : Str}
    (hp : hrefTok.isPrefixOf (c :: t) = true)
    (hg : matchGroup (t.drop 5) = some g) :
    scanL (c :: t) = g :: scanL (t.drop (5 + g.length)) := by
  show scanAux (t.length + 1) (c :: t) = _
  rw [scanAux_cons, if_pos hp, hg]
  show g :: scanAux t.length (t.drop (5 + g.length)) = _
  rw [scanAux_fuel t.length (t.drop (5 + g.length)).length (t.drop (5 + g.length))
    (by rw [List.length_drop]; omega) (Nat.le_refl _)]
  rfl


theorem hrefTok_eq : hrefTok = ['h', 'r', 'e', 'f', '=', '"'] := rfl

/-- Scanning one canonical anchor line emits exactly its href value and
    continues after the line. -/
theorem scanL_anchor_step (v W : Str)
    (htr : occursIn tripsTok (v.take (v.length - 4)) = true)
    (hsu : aspxTok.isSuffixOf v = true)
    (hcl : ∀ c ∈ v, c ≠ '"' ∧ c ≠ '\n') :
    scanL ('<' :: 'a' :: ' ' :: 'h' :: 'r' :: 'e' :: 'f' :: '=' :: '"' ::
      (v ++ '"' :: '>' :: '\n' :: W)) = v :: scanL W := by
  have n1 : scanL ('<' :: 'a' :: ' ' :: 'h' :: 'r' :: 'e' :: 'f' :: '=' :: '"' ::
      (v ++ '"' :: '>' :: '\n' :: W)) =
      scanL ('a' :: ' ' :: 'h' :: 'r' :: 'e' :: 'f' :: '=' :: '"' ::
      (v ++ '"' :: '>' :: '\n' :: W)) := scanL_cons_no rfl
  have n2 : scanL ('a' :: ' ' :: 'h' :: 'r' :: 'e' :: 'f' :: '=' :: '"' ::
      (v ++ '"' :: '>' :: '\n' :: W)) =
      scanL (' ' :: 'h' :: 'r' :: 'e' :: 'f' :: '=' :: '"' ::
      (v ++ '"' :: '>' :: '\n' :: W)) := scanL_cons_no rfl
  have n3 : scanL (' ' :: 'h' :: 'r' :: 'e' :: 'f' :: '=' :: '"' ::
      (v ++ '"' :: '>' :: '\n' :: W)) =
      scanL ('h' :: 'r' :: 'e' :: 'f' :: '=' :: '"' ::
      (v ++ '"' :: '>' :: '\n' :: W)) := scanL_cons_no rfl
  have hmatch : matchGroup (('r' :: 'e' :: 'f' :: '=' :: '"' ::
      (v ++ '"' :: '>' :: '\n' :: W)).drop 5) = some v :=
    matchGroup_anchor v W htr hsu hcl
  have n4 : scanL ('h' :: 'r' :: 'e' :: 'f' :: '=' :: '"' ::
      (v ++ '"' :: '>' :: '\n' :: W)) =
      v :: scanL (('r' :: 'e' :: 'f' :: '=' :: '"' ::
      (v ++ '"' :: '>' :: '\n' :: W)).drop (5 + v.length)) :=
    scanL_cons_match (by rw [hrefTok_eq]; simp [List.isPrefixOf]) hmatch
  have hdrop : ('r' :: 'e' :: 'f' :: '=' :: '"' ::
      (v ++ '"' :: '>' :: '\n' :: W)).drop (5 + v.length) =
      '"' :: '>' :: '\n' :: W := by
    rw [show ('r' :: 'e' :: 'f' :: '=' :: '"' ::
        (v ++ '"' :: '>' :: '\n' :: W)) =
      (('r' :: 'e' :: 'f' :: '=' :: '"' :: v) ++ ('"' :: '>' :: '\n' :: W))
      from by simp]
    rw [show 5 + v.length = ('r' :: 'e' :: 'f' :: '=' :: '"' :: v).length
      from by simp; omega]
    exact List.drop_left _ _
  have n5 : scanL ('"' :: '>' :: '\n' :: W) = scanL ('>' :: '\n' :: W) :=
    scanL_cons_no rfl
  have n6 : scanL ('>' :: '\n' :: W) = scanL ('\n' :: W) := scanL_cons_no rfl
  have n7 : scanL ('\n' :: W) = scanL W := scanL_cons_no rfl
  rw [n1, n2, n3, n4, hdrop, n5, n6, n7]

/-- One anchor per line (`<a href="v">`), the canonical well-separated
    index page shape. -/
def anchorOf (v : Str) : Str := chars "<a href=\"" ++ v ++ chars "\">"

def buildIndex : List Str → Str
  | [] => []
  | v :: t => anchorOf v ++ '\n' :: buildIndex t

theorem scanL_buildIndex (vs : List Str)
    (hv : ∀ v ∈ vs,
      occursIn tripsTok (v.take (v.length - 4)) = true ∧
      aspxTok.isSuffixOf v = true ∧
      (∀ c ∈ v, c ≠ '"' ∧ c ≠ '\n')) :
    scanL (buildIndex vs) = vs := by
  induction vs with
  | nil => rfl
  | cons v t ih =>
    obtain ⟨htr, hsu, hcl⟩ := hv v (by simp)
    have hbuild : buildIndex (v :: t) =
        '<' :: 'a' :: ' ' :: 'h' :: 'r' :: 'e' :: 'f' :: '=' :: '"' ::
          (v ++ '"' :: '>' :: '\n' :: buildIndex t) := by
      show (chars "<a href=\"" ++ (v ++ chars "\">")) ++ '\n' :: buildIndex t = _
      rw [List.append_assoc, List.append_assoc]
      rfl
    rw [hbuild, scanL_anchor_step v (buildIndex t) htr hsu hcl,
      ih (fun x hx => hv x (by simp [hx]))]


/-- Modelled from the spec: "the set of anchor-href values that contain the
    substring trips and end in aspx".  An anchor-href value is the text
    between `href="` and the next quote; the set keeps those values that
    contain `trips` and end with `aspx` (duplicates collapse). -/
def hrefValsAux : Nat → Str → List Str
  | 0, _ => []
  | _ + 1, [] => []
  | n + 1, c :: t =>
    if hrefTok.isPrefixOf (c :: t) then
      ((t.drop 5).takeWhile (fun x => x ≠ '"')) ::
        hrefValsAux n
          (t.drop (5 + ((t.drop 5).takeWhile (fun x => x ≠ '"')).length))
    else hrefValsAux n t

/-- Modelled from the spec: all anchor-href values of the body. -/
def hrefValues (html : Str) : List Str := hrefValsAux html.length html

/-- Modelled from the spec: the set (duplicate-free list) of anchor-href
    values containing `trips` and ending in `aspx`. -/
def specTripHrefs (html : Str) : List Str :=
  ((hrefValues html).filter
    (fun v => occursIn tripsTok v && aspxTok.isSuffixOf v)).dedup

def exBadHtml : Str := chars "<a href=\"trips_1.aspx\"> see aspx</a>"

/-- C6 counterexample: on a well-formed body with a single trips/aspx anchor
    whose line also contains the word `aspx` after the closing quote, the
    harvested set is NOT the set of matching anchor-href values: the sole
    matching href value is missing from the result, which instead contains a
    string that is not an href value at all (the greedy group ran past the
    closing quote). -/
theorem select_valid_urls_counterexample :
    select_valid_urls ⟨200, exBadHtml, []⟩ =
      .ok [chars "trips_1.aspx\"> see aspx"] ∧
    specTripHrefs exBadHtml = [chars "trips_1.aspx"] ∧
    chars "trips_1.aspx" ∉ get_links exBadHtml ∧
    chars "trips_1.aspx\"> see aspx" ∈ get_links exBadHtml ∧
    chars "trips_1.aspx\"> see aspx" ∉ specTripHrefs exBadHtml := by
  refine ⟨by decide, by decide, by decide, by decide, by decide⟩

/-- C6 (amended): on an index body that is exactly a sequence of bare
    anchors, one per line — each line is `<a href="v">` and nothing else,
    and every href value `v` contains `trips` early enough to leave room
    for the trailing `aspx`, ends in `aspx`, and contains no quote or
    newline — `select_valid_urls` on a 200 response returns exactly the set
    of those href values: every `v` is in the result, nothing else is, and
    duplicates collapse by set semantics.  Bodies with any other material
    on a line are excluded: the greedy group `.*trips.*aspx` can run past
    an anchor's closing quote (see the counterexample), and
    `get_links_nonhref_line` below shows that even a line whose href value
    satisfies none of the conditions contributes a non-href string when
    `trips … aspx` text follows the anchor. -/
theorem select_valid_urls_amended (vs : List Str)
    (hv : ∀ v ∈ vs,
      occursIn tripsTok (v.take (v.length - 4)) = true ∧
      aspxTok.isSuffixOf v = true ∧
      (∀ c ∈ v, c ≠ '"' ∧ c ≠ '\n')) :
    get_links (buildIndex vs) = vs.dedup ∧
    (∀ x, x ∈ get_links (buildIndex vs) ↔ x ∈ vs) ∧
    (∀ r : HttpResponse, r.status_code = 200 → r.text = buildIndex vs →
      select_valid_urls r = .ok vs.dedup) := by
  have hs : scanL (buildIndex vs) = vs := scanL_buildIndex vs hv
  have hg : get_links (buildIndex vs) = vs.dedup := by
    show (scanL (buildIndex vs)).dedup = vs.dedup
    rw [hs]
  refine ⟨hg, ?_, ?_⟩
  · intro x
    rw [hg]
    exact List.mem_dedup
  · intro r h200 htext
    rw [select_valid_urls, if_neg (by rw [h200]; simp), htext, hg]

theorem select_valid_urls_amended_witness :
    (∀ v ∈ [chars "/g/trips_23_01_January-csv.aspx",
            chars "/g/trips_22_03_March-csv.aspx",
            chars "/g/trips_23_01_January-csv.aspx"],
      occursIn tripsTok (v.take (v.length - 4)) = true ∧
      aspxTok.isSuffixOf v = true ∧
      (∀ c ∈ v, c ≠ '"' ∧ c ≠ '\n')) ∧
    (get_links (buildIndex [chars "/g/trips_23_01_January-csv.aspx",
        chars "/g/trips_22_03_March-csv.aspx",
        chars "/g/trips_23_01_January-csv.aspx"]) =
      [chars "/g/trips_23_01_January-csv.aspx",
       chars "/g/trips_22_03_March-csv.aspx",
       chars "/g/trips_23_01_January-csv.aspx"].dedup ∧
    (∀ x, x ∈ get_links (buildIndex [chars "/g/trips_23_01_January-csv.aspx",
        chars "/g/trips_22_03_March-csv.aspx",
        chars "/g/trips_23_01_January-csv.aspx"]) ↔
      x ∈ [chars "/g/trips_23_01_January-csv.aspx",
           chars "/g/trips_22_03_March-csv.aspx",
           chars "/g/trips_23_01_January-csv.aspx"]) ∧
    (∀ r : HttpResponse, r.status_code = 200 →
      r.text = buildIndex [chars "/g/trips_23_01_January-csv.aspx",
        chars "/g/trips_22_03_March-csv.aspx",
        chars "/g/trips_23_01_January-csv.aspx"] →
      select_valid_urls r = .ok
        [chars "/g/trips_23_01_January-csv.aspx",
         chars "/g/trips_22_03_March-csv.aspx",
         chars "/g/trips_23_01_January-csv.aspx"].dedup)) :=
  ⟨by decide, select_valid_urls_amended _ (by decide)⟩

/-- A line whose anchor's href value satisfies none of the matching
    conditions still contributes a non-href string when `trips … aspx` text
    follows the closing quote: the group starts after `href="` and the
    greedy `.*aspx` runs to the last `aspx` of the line.  This is why the
    amended statement restricts the body to bare matching anchors only: on
    any wider class of bodies the harvested set need not be a set of href
    values at all. -/
theorem get_links_nonhref_line :
    get_links (chars "<a href=\"/x.html\">trips aspx</a>") =
      [chars "/x.html\">trips aspx"] := by decide

end Bicimad
